import Mathlib

/-!
Verification development for the WZSS competitions scraper
(`fetch_competitions.py`).  The Python source is shallowly embedded:
strings are Lean `String`s (lists of characters), dictionaries are
association lists in insertion order, files and network are out of
scope, and every partial Python operation (exceptions) is modelled with
`Option`/`Except`.
-/

set_option autoImplicit false

/-! ## Character and list utilities -/

/-- ASCII decimal digit, the alphabet relevant to the scraped text
(models the characters matched by the `\d` regex class here). -/
def isDigitCh (c : Char) : Bool := decide (48 ≤ c.toNat) && decide (c.toNat ≤ 57)

/-- Whitespace characters, the alphabet relevant to the `\s` regex class
and to Python `str.strip` on the scraped text. -/
def isSpaceCh (c : Char) : Bool :=
  c = ' ' || c = '\t' || c = '\n' || c = '\x0d' || c = '\x0b' || c = '\x0c'

/-- Numeric value of a list of ASCII digits (Python `int` on a digit string). -/
def digitsToNat (l : List Char) : Nat :=
  l.foldl (fun a c => 10 * a + (c.toNat - 48)) 0

/-- Does `pre` start the list `l`? -/
def startsWithL (pre l : List Char) : Bool :=
  match pre, l with
  | [], _ => true
  | _ :: _, [] => false
  | p :: ps, c :: cs => p = c && startsWithL ps cs

/-- Substring test on character lists (Python `tok in s`). -/
def containsTok (tok : List Char) : List Char → Bool
  | [] => startsWithL tok []
  | c :: cs => startsWithL tok (c :: cs) || containsTok tok cs

/-- Split on a single separator character (Python `str.split("/")`). -/
def splitOnCh (sep : Char) : List Char → List (List Char)
  | [] => [[]]
  | c :: cs =>
    if c = sep then [] :: splitOnCh sep cs
    else
      match splitOnCh sep cs with
      | [] => [[c]]
      | h :: t => (c :: h) :: t

/-- Join character lists with a separator (Python `sep.join(parts)`). -/
def joinWithCh (sep : Char) : List (List Char) → List Char
  | [] => []
  | [p] => p
  | p :: q :: t => p ++ sep :: joinWithCh sep (q :: t)

/-- Drop the longest suffix whose characters all satisfy `p`. -/
def dropTrailWhile (p : Char → Bool) : List Char → List Char
  | [] => []
  | c :: r =>
    match dropTrailWhile p r with
    | [] => if p c then [] else [c]
    | t => c :: t

/-- Python `str.strip()` on the modelled whitespace alphabet. -/
def trimStr (s : String) : String :=
  String.mk (dropTrailWhile isSpaceCh (s.data.dropWhile isSpaceCh))

/-- Collapse maximal runs of the character `t` to a single `t`. -/
def squeezeRun (t : Char) : List Char → List Char
  | [] => []
  | [c] => [c]
  | a :: b :: r =>
    if a = t && b = t then squeezeRun t (b :: r)
    else a :: squeezeRun t (b :: r)

/-- First non-empty string in a list, or `""`. -/
def firstNE : List String → String
  | [] => ""
  | w :: t => if w ≠ "" then w else firstNE t

/-- Lookup in an association list (first binding wins, as in a Python dict). -/
def lookupA {α β : Type} [DecidableEq α] : List (α × β) → α → Option β
  | [], _ => none
  | (k, v) :: t, a => if a = k then some v else lookupA t a

/-- Update the value stored under key `k` (Python `d[k] = f(d[k])`). -/
def modifyA {α β : Type} [DecidableEq α] (l : List (α × β)) (k : α) (f : β → β) :
    List (α × β) :=
  l.map (fun p => if p.1 = k then (p.1, f p.2) else p)

/-- Insert a string into a `≤`-sorted list of strings. -/
def insortStr (x : String) : List String → List String
  | [] => [x]
  | y :: r => if x ≤ y then x :: y :: r else y :: insortStr x r

/-- Sort a list of strings (Python `sorted`). -/
def sortStr (l : List String) : List String := l.foldr insortStr []

/-! ## Calendar arithmetic (Python `datetime.date`) -/

/-- Gregorian leap year test. -/
def isLeap (y : Nat) : Bool :=
  y % 4 = 0 && (y % 100 ≠ 0 || y % 400 = 0)

/-- Number of days in a month of the proleptic Gregorian calendar. -/
def daysInMonth (y m : Nat) : Nat :=
  if m = 2 then (if isLeap y then 29 else 28)
  else if m = 4 || m = 6 || m = 9 || m = 11 then 30
  else 31

/-- Does `(y, m, d)` denote a constructible `datetime.date`?  Python's
`date` accepts years 1 to 9999. -/
def validYMD (y m d : Nat) : Bool :=
  decide (1 ≤ y) && decide (y ≤ 9999) && decide (1 ≤ m) && decide (m ≤ 12) &&
    decide (1 ≤ d) && decide (d ≤ daysInMonth y m)

/-- The next calendar day (true calendar arithmetic with month and year
rollover). -/
def dateSucc (y m d : Nat) : Nat × Nat × Nat :=
  if d < daysInMonth y m then (y, m, d + 1)
  else if m < 12 then (y, m + 1, 1)
  else (y + 1, 1, 1)

/-- Adding one day with `timedelta`: raises `OverflowError` (modelled as
`none`) exactly at `date.max = 9999-12-31`. -/
def nextDay (y m d : Nat) : Option (Nat × Nat × Nat) :=
  if y = 9999 ∧ m = 12 ∧ d = 31 then none else some (dateSucc y m d)

/-- Zero-pad to two digits (Python `f"{n:02d}"`). -/
def pad2 (n : Nat) : String :=
  if n < 10 then "0" ++ Nat.repr n else Nat.repr n

/-- Zero-pad to four digits (Python `f"{n:04d}"`, and `%Y` for four-digit
years). -/
def pad4 (n : Nat) : String :=
  if n < 10 then "000" ++ Nat.repr n
  else if n < 100 then "00" ++ Nat.repr n
  else if n < 1000 then "0" ++ Nat.repr n
  else Nat.repr n

/-- `YYYYMMDD` rendering of a date (the `strftime("%Y%m%d")` /
`f"{y:04d}{m:02d}{d:02d}"` format used by the source). -/
def fmtYMD (y m d : Nat) : String := pad4 y ++ pad2 m ++ pad2 d

/-- `fmtYMD` on a packed date triple. -/
def fmtT (t : Nat × Nat × Nat) : String := fmtYMD t.1 t.2.1 t.2.2

/-! ## The regex scanners of `parse_date_range_for_ics` -/

/-- Leftmost match of `(\d{4})`: the first window of four consecutive
digits, as a number. -/
def findFour : List Char → Option Nat
  | a :: b :: c :: d :: r =>
    if isDigitCh a && isDigitCh b && isDigitCh c && isDigitCh d then
      some (digitsToNat [a, b, c, d])
    else findFour (b :: c :: d :: r)
  | _ => none

/-- Attempt to match `(\d+)\s*-\s*(\d+)` anchored at the head of the list.
The character classes are disjoint, so greedy maximal munch is exact. -/
def matchRangeAt (l : List Char) : Option (Nat × Nat) :=
  match l.span isDigitCh with
  | ([], _) => none
  | (d1, rest) =>
    match rest.dropWhile isSpaceCh with
    | '-' :: rest2 =>
      match (rest2.dropWhile isSpaceCh).span isDigitCh with
      | ([], _) => none
      | (d2, _) => some (digitsToNat d1, digitsToNat d2)
    | _ => none

/-- Leftmost match of `re.search(r'(\d+)\s*-\s*(\d+)', s)`. -/
def rangeScan : List Char → Option (Nat × Nat)
  | [] => none
  | c :: cs =>
    match matchRangeAt (c :: cs) with
    | some p => some p
    | none => rangeScan cs

/-- `re.search(r'^(\d+)', s)`: the leading run of digits, if any. -/
def leadNum (l : List Char) : Option Nat :=
  match l.span isDigitCh with
  | ([], _) => none
  | (ds, _) => some (digitsToNat ds)

/-- Lower-casing on the alphabet of the scraped text: ASCII letters plus
the Polish diacritics (what Python `str.lower` does to them). -/
def lowerCh (c : Char) : Char :=
  if decide (65 ≤ c.toNat) && decide (c.toNat ≤ 90) then Char.ofNat (c.toNat + 32)
  else if c = 'Ą' then 'ą' else if c = 'Ć' then 'ć' else if c = 'Ę' then 'ę'
  else if c = 'Ł' then 'ł' else if c = 'Ń' then 'ń' else if c = 'Ó' then 'ó'
  else if c = 'Ś' then 'ś' else if c = 'Ź' then 'ź' else if c = 'Ż' then 'ż'
  else c

/-- The fixed 12-entry month table, in its insertion order. -/
def monthsList : List (List Char × Nat) :=
  [("sty".data, 1), ("lut".data, 2), ("mar".data, 3), ("kwi".data, 4),
   ("maj".data, 5), ("cze".data, 6), ("lip".data, 7), ("sie".data, 8),
   ("wrz".data, 9), ("paź".data, 10), ("lis".data, 11), ("gru".data, 12)]

/-- First month token (in table order) occurring in the lower-cased text. -/
def monthScan (cs : List Char) : Option Nat :=
  monthsList.findSome? (fun p =>
    if containsTok p.1 (cs.map lowerCh) then some p.2 else none)

/-- `parse_date_range_for_ics`: parses `'10 sty 2026'` or
`'27 - 28 lut 2026'` into a pair of `YYYYMMDD` strings (start, exclusive
end), or `none` when unparseable or when date construction raises. -/
def parse_date_range_for_ics (s : String) : Option (String × String) :=
  let cs := s.data
  let year := (findFour cs).getD 2026
  match monthScan cs with
  | none => none
  | some month =>
    match rangeScan cs with
    | some (d1, d2) =>
      if validYMD year month d1 && validYMD year month d2 then
        match nextDay year month d2 with
        | some nxt => some (fmtYMD year month d1, fmtT nxt)
        | none => none
      else none
    | none =>
      match leadNum cs with
      | some d =>
        if validYMD year month d then
          match nextDay year month d with
          | some nxt => some (fmtYMD year month d, fmtT nxt)
          | none => none
        else none
      | none => none

/-! ## `generate_slug` -/

/-- The fixed Polish-diacritic replacement table of `generate_slug`
(case-preserving pairs), applied characterwise. -/
def applyRepl (c : Char) : Char :=
  if c = 'ą' then 'a' else if c = 'ć' then 'c' else if c = 'ę' then 'e'
  else if c = 'ł' then 'l' else if c = 'ń' then 'n' else if c = 'ó' then 'o'
  else if c = 'ś' then 's' else if c = 'ź' then 'z' else if c = 'ż' then 'z'
  else if c = 'Ą' then 'A' else if c = 'Ć' then 'C' else if c = 'Ę' then 'E'
  else if c = 'Ł' then 'L' else if c = 'Ń' then 'N' else if c = 'Ó' then 'O'
  else if c = 'Ś' then 'S' else if c = 'Ź' then 'Z' else if c = 'Ż' then 'Z'
  else c

/-- Is `c` in the class `[a-z0-9]`? -/
def isAl (c : Char) : Bool :=
  (decide (97 ≤ c.toNat) && decide (c.toNat ≤ 122)) ||
    (decide (48 ≤ c.toNat) && decide (c.toNat ≤ 57))

/-- `generate_slug`: transliterate the Polish diacritics, lower-case,
replace each maximal run outside `[a-z0-9]` by one underscore
(`re.sub(r'[^a-z0-9]+', '_', text)`), and strip outer underscores. -/
def generate_slug (s : String) : String :=
  let mapped := s.data.map (fun c =>
    let c2 := lowerCh (applyRepl c)
    if isAl c2 then c2 else '_')
  String.mk (dropTrailWhile (fun c => c = '_')
    ((squeezeRun '_' mapped).dropWhile (fun c => c = '_')))

/-- Acceptor for the regex `^[a-z0-9]*(_[a-z0-9]+)*$`; the state records
whether the word may stop or an underscore was just read. -/
def slugAccept (st : Bool) : List Char → Bool
  | [] => st
  | c :: r =>
    if isAl c then slugAccept true r
    else if c = '_' && st then slugAccept false r
    else false

/-- Does a string match `^[a-z0-9]*(_[a-z0-9]+)*$`? -/
def slugMatches (l : List Char) : Bool := slugAccept true l

/-- The national diacritics transliterated by `generate_slug`. -/
def polishChars : List Char :=
  ['ą', 'ć', 'ę', 'ł', 'ń', 'ó', 'ś', 'ź', 'ż',
   'Ą', 'Ć', 'Ę', 'Ł', 'Ń', 'Ó', 'Ś', 'Ź', 'Ż']

/-! ## The markup model and `parse_competitions` -/

/-- A hyperlink: `href` attribute and visible text. -/
structure Anchor where
  href : String
  txt : String
deriving DecidableEq, Repr

/-- One sibling element carrying the class `sm:grid-cols-12`: the
sub-elements `parse_competitions` reads from it.  `club` is the first
text node of the `p.uppercase` child (absent when the child is absent),
`location` the text of the `p.leading-4` child, `dateTxt` the text of
the `div.whitespace-nowrap` child, `nameTxt` the text of the
`strong.leading-4` child, `weapons` the texts of the `p` children of the
`div.grid-cols-2` child, and `anchors` all `a[href]` descendants in
document order. -/
structure Entry where
  club : Option String
  location : Option String
  dateTxt : Option String
  nameTxt : Option String
  anchors : List Anchor
  weapons : Option (List String)
deriving DecidableEq, Repr

/-- A top-level sibling of the scraped document: a month section header
(`p.text-2xl`), a competition entry (`sm:grid-cols-12`), or anything
else. -/
inductive Node where
  | monthHeader : Node
  | compEntry : Entry → Node
  | otherNode : Node
deriving DecidableEq, Repr

/-- The competition entries the double sibling-scanning loop visits: all
entries after the first month header, in document order (a section runs
to the next header; entries before every header are never reached). -/
def entriesGo (seen : Bool) : List Node → List Entry
  | [] => []
  | Node.monthHeader :: r => entriesGo true r
  | Node.compEntry e :: r =>
    if seen then e :: entriesGo seen r else entriesGo seen r
  | Node.otherNode :: r => entriesGo seen r

/-- Entries visited by both passes of `parse_competitions`. -/
def entriesInSections (doc : List Node) : List Entry := entriesGo false doc

/-- First anchor whose visible text contains `"Regulamin"`. -/
def regAnchorOf (e : Entry) : Option Anchor :=
  e.anchors.find? (fun a => containsTok "Regulamin".data a.txt.data)

/-- `"/".join(href.split("/")[:3])`: the link address reduced to its
first three `/`-separated segments. -/
def joinTake3 (href : String) : String :=
  String.mk (joinWithCh '/' ((splitOnCh '/' href.data).take 3))

/-- `sanitize_location`: remove commas and double quotes, then strip. -/
def sanitize_location (s : String) : String :=
  trimStr (String.mk (s.data.filter (fun c => !(c = ',' || c = '"'))))

/-- One pass-1 step: record the first non-empty website guess per club. -/
def pass1step (st : List (String × String)) (e : Entry) : List (String × String) :=
  match e.club with
  | none => st
  | some cp =>
    let clubName := trimStr cp
    match regAnchorOf e with
    | none => st
    | some a =>
      let website := joinTake3 a.href
      if website ≠ "" ∧ lookupA st clubName = none then st ++ [(clubName, website)]
      else st

/-- Pass 1 of `parse_competitions`: the club → website inference map. -/
def club_websites (doc : List Node) : List (String × String) :=
  (entriesInSections doc).foldl pass1step []

/-- Website inferred for a club, or `""` (`club_websites.get(club_name, "")`). -/
def pwOf (sites : List (String × String)) (c : String) : String :=
  (lookupA sites c).getD ""

/-- A row of the location ledger (`locations.csv`): latitude/longitude
when known, website or `""`.  Coordinates are exact decimals, modelled
as rationals. -/
structure LRow where
  latitude : Option ℚ
  longitude : Option ℚ
  website : String
deriving DecidableEq, Repr

/-- The ledger, keyed by sanitized location text. -/
abbrev Ledger : Type := List (String × LRow)

/-- Latitude recorded for a location (`None`/absent collapse to `none`). -/
def lkpLat (L : Ledger) (loc : String) : Option ℚ :=
  (lookupA L loc).bind (fun r => r.latitude)

/-- Longitude recorded for a location. -/
def lkpLon (L : Ledger) (loc : String) : Option ℚ :=
  (lookupA L loc).bind (fun r => r.longitude)

/-- Website recorded for a location, or `""`. -/
def lkpWeb (L : Ledger) (loc : String) : String :=
  ((lookupA L loc).map (fun r => r.website)).getD ""

/-- A competition dict: every field optional, exactly as assembled by
pass 2. -/
structure Comp where
  date : Option String
  name : Option String
  regulation_link : Option String
  weapons : Option (List String)
deriving DecidableEq, Repr

/-- `if competition:` — is the dict non-empty? -/
def compNonempty (c : Comp) : Bool :=
  c.date.isSome || c.name.isSome || c.regulation_link.isSome || c.weapons.isSome

/-- The competition extracted from an entry. -/
def compOf (e : Entry) : Comp :=
  { date := e.dateTxt.map trimStr
    name := e.nameTxt.map trimStr
    regulation_link := (regAnchorOf e).map (fun a => a.href)
    weapons := e.weapons.map (fun ws => ws.map trimStr) }

/-- One value of `locations_competitions`: a club+location record. -/
structure LocRec where
  club : String
  location : String
  latitude : Option ℚ
  longitude : Option ℚ
  website : String
  comps : List Comp
deriving DecidableEq, Repr

/-- The accumulated state of pass 2: the `locations_competitions`
mapping (insertion order) and the `all_locations` occurrences. -/
abbrev St : Type := List ((String × String) × LocRec) × List String

/-- One pass-2 step: require club and location, compute the key, create
or extend the record, backfill an empty website, append the competition. -/
def pass2step (sites : List (String × String)) (L : Ledger) (st : St) (e : Entry) : St :=
  match e.club, e.location with
  | some cp, some lp =>
    let clubName := trimStr cp
    let location_text := trimStr lp
    let sanLoc := sanitize_location location_text
    let website := pwOf sites clubName
    let key := (clubName, sanLoc)
    let recs1 :=
      match lookupA st.1 key with
      | none =>
        st.1 ++ [(key,
          { club := clubName, location := location_text,
            latitude := lkpLat L sanLoc, longitude := lkpLon L sanLoc,
            website := if website ≠ "" then website else lkpWeb L sanLoc,
            comps := [] })]
      | some _ => st.1
    let recs2 :=
      if website ≠ "" then
        modifyA recs1 key (fun r =>
          if r.website = "" then { r with website := website } else r)
      else recs1
    let comp := compOf e
    let recs3 :=
      if compNonempty comp then
        modifyA recs2 key (fun r => { r with comps := r.comps ++ [comp] })
      else recs2
    (recs3, st.2 ++ [sanLoc])
  | _, _ => st

/-- `parse_competitions`: pass 1 then pass 2 over the sibling sections.
`init` is the content of the process-wide `locations_competitions`
global when the call starts (empty for a fresh process). -/
def parse_competitions (doc : List Node) (L : Ledger)
    (init : List ((String × String) × LocRec)) : St :=
  (entriesInSections doc).foldl (pass2step (club_websites doc) L) (init, [])

/-- The website-scan loop of `update_locations_csv`: the first record
whose sanitized location matches and whose website is non-empty. -/
def scanW : List ((String × String) × LocRec) → String → String
  | [], _ => ""
  | (_, r) :: t, loc =>
    if sanitize_location r.location = loc ∧ r.website ≠ "" then r.website
    else scanW t loc

/-- `update_locations_csv`: rewrite the ledger with one row per observed
sanitized location (sorted), coordinates carried over from the old
ledger, website from the records scan with the old ledger as fallback. -/
def update_locations_csv (alllocs : List String) (L : Ledger)
    (recs : List ((String × String) × LocRec)) : Ledger :=
  (sortStr alllocs.dedup).map (fun loc =>
    (loc,
      { latitude := lkpLat L loc, longitude := lkpLon L loc,
        website := if scanW recs loc ≠ "" then scanW recs loc else lkpWeb L loc }))

/-- One whole run's effect on the ledger file: parse the markup with the
current ledger (fresh global), then rewrite the ledger. -/
def run_ledger (doc : List Node) (L : Ledger) : Ledger :=
  update_locations_csv (parse_competitions doc L []).2 L (parse_competitions doc L []).1

/-- Refill a record's ledger-dependent fields from the given ledger and
website-inference map; pass 2 leaves every record a fixed point of this
map, and reparsing under another ledger is exactly this map. -/
def fillRow (sites : List (String × String)) (L : Ledger)
    (p : (String × String) × LocRec) : (String × String) × LocRec :=
  (p.1,
    { p.2 with
      latitude := lkpLat L p.1.2, longitude := lkpLon L p.1.2,
      website := if pwOf sites p.1.1 ≠ "" then pwOf sites p.1.1 else lkpWeb L p.1.2 })

/-- Modelled from the spec: the website guess a club should get — the
first regulation link among that club's entries (document order) whose
first-three-segments reduction is non-empty. -/
def specFirstSite (es : List Entry) (c : String) : String :=
  firstNE (es.filterMap (fun e =>
    match e.club with
    | some cp =>
      if trimStr cp = c then (regAnchorOf e).map (fun a => joinTake3 a.href)
      else none
    | none => none))

/-! ## The calendar emitter (`save_calendars`) -/

/-- Per-club accumulated calendar data: merged competitions and the
generic location field. -/
structure ClubCal where
  comps : List Comp
  location : String
deriving DecidableEq, Repr

/-- One grouping step of `save_calendars`: create the club on first
sight (with that entry's location), then always extend the competitions. -/
def groupStep (st : List (String × ClubCal)) (r : LocRec) : List (String × ClubCal) :=
  let st1 :=
    match lookupA st r.club with
    | none => st ++ [(r.club, { comps := [], location := r.location })]
    | some _ => st
  modifyA st1 r.club (fun d => { d with comps := d.comps ++ r.comps })

/-- The `clubs_data` grouping of `save_calendars`. -/
def groupClubs (rs : List LocRec) : List (String × ClubCal) :=
  rs.foldl groupStep []

/-- All competitions of entries of club `c`, concatenated in input order. -/
def concatComps (rs : List LocRec) (c : String) : List Comp :=
  rs.foldr (fun r acc => if r.club = c then r.comps ++ acc else acc) []

/-- `w.replace('\n', ' ').strip()` on one weapon label. -/
def cleanWeapon (w : String) : String :=
  trimStr (String.mk (w.data.map (fun c => if c = '\n' then ' ' else c)))

/-- `re.sub(r'\s+', ' ', s)`: collapse whitespace runs to single spaces. -/
def squishWs (s : String) : String :=
  String.mk (squeezeRun ' ' (s.data.map (fun c => if isSpaceCh c then ' ' else c)))

/-- Join strings with a separator (Python `sep.join`). -/
def joinWithStr (sep : String) : List String → String
  | [] => ""
  | [p] => p
  | p :: q :: t => p ++ sep ++ joinWithStr sep (q :: t)

/-- The event block emitted for one competition: `[]` when the date is
unparseable (silently skipped), `KeyError` when a required dict key is
missing. -/
def renderComp (nowStr loc : String) (comp : Comp) : Except String (List String) :=
  match comp.date with
  | none => Except.error "KeyError: date"
  | some d =>
    match parse_date_range_for_ics d with
    | none => Except.ok []
    | some (startDate, endDate) =>
      let weaponsDesc := squishWs (joinWithStr ", " ((comp.weapons.getD []).map cleanWeapon))
      let description :=
        "Bronie: " ++ weaponsDesc ++
          (match comp.regulation_link with
           | some rl => "\\nRegulamin: " ++ rl
           | none => "")
      match comp.name with
      | none => Except.error "KeyError: name"
      | some nm =>
        Except.ok
          ["BEGIN:VEVENT",
           "DTSTART;VALUE=DATE:" ++ startDate,
           "DTEND;VALUE=DATE:" ++ endDate,
           "DTSTAMP:" ++ nowStr,
           "UID:" ++ startDate ++ "-" ++ generate_slug nm ++ "@wzss.map",
           "SUMMARY:" ++ nm,
           "DESCRIPTION:" ++ description,
           "LOCATION:" ++ loc,
           "END:VEVENT"]

/-- All event blocks of one club's competitions, in order; the first
`KeyError` aborts. -/
def eventsFor (nowStr loc : String) : List Comp → Except String (List String)
  | [] => Except.ok []
  | c :: t =>
    match renderComp nowStr loc c with
    | Except.error e => Except.error e
    | Except.ok ev =>
      match eventsFor nowStr loc t with
      | Except.error e => Except.error e
      | Except.ok evs => Except.ok (ev ++ evs)

/-- The fixed calendar wrapper head for one club. -/
def icsHead (club : String) : List String :=
  ["BEGIN:VCALENDAR", "VERSION:2.0", "PRODID:-//WZSS//Mapa Zawodow//PL",
   "CALSCALE:GREGORIAN", "METHOD:PUBLISH",
   "X-WR-CALNAME:" ++ club ++ " - Zawody",
   "REFRESH-INTERVAL;VALUE=DURATION:P1D"]

/-- One club's calendar file: slug-derived name and CRLF-joined body. -/
def renderClub (nowStr : String) (p : String × ClubCal) :
    Except String (String × String) :=
  match eventsFor nowStr p.2.location p.2.comps with
  | Except.error e => Except.error e
  | Except.ok evs =>
    Except.ok (generate_slug p.1 ++ ".ics",
      joinWithStr "\x0d\n" (icsHead p.1 ++ evs ++ ["END:VCALENDAR"]))

/-- `save_calendars`: group records by club, then render one calendar
per club; an uncaught `KeyError` aborts the whole batch. -/
def save_calendars (nowStr : String) (rs : List LocRec) :
    Except String (List (String × String)) :=
  let go : List (String × ClubCal) → Except String (List (String × String)) :=
    fun l => l.foldr (fun p acc =>
      match renderClub nowStr p with
      | Except.error e => Except.error e
      | Except.ok file =>
        match acc with
        | Except.error e => Except.error e
        | Except.ok files => Except.ok (file :: files)) (Except.ok [])
  go (groupClubs rs)


/-- No two adjacent occurrences of the character `t`. -/
def noDDb (t : Char) : List Char → Bool
  | [] => true
  | [_] => true
  | a :: b :: r => !(a = t && b = t) && noDDb t (b :: r)

/-- The per-record invariant that pass 2 maintains: the key is the
club's trimmed name with the sanitized location, the record's raw
location sanitizes to the key's location, the coordinates come from the
ledger at the key's location, and the website is the pass-1 inference
with the ledger website as fallback. -/
def recInv (sites : List (String × String)) (L : Ledger)
    (p : (String × String) × LocRec) : Prop :=
  sanitize_location p.2.location = p.1.2 ∧
  p.2.latitude = lkpLat L p.1.2 ∧
  p.2.longitude = lkpLon L p.1.2 ∧
  p.2.website =
    (if pwOf sites p.1.1 ≠ "" then pwOf sites p.1.1 else lkpWeb L p.1.2)

/-! ## Helper lemmas -/

/-- A competition whose event block is empty is skipped without
disturbing the rest of the batch. -/
theorem eventsFor_skip (nowStr loc : String) (c : Comp)
    (h : renderComp nowStr loc c = Except.ok []) :
    ∀ l1 l2 : List Comp,
      eventsFor nowStr loc (l1 ++ c :: l2) = eventsFor nowStr loc (l1 ++ l2) := by
  intro l1 l2
  induction l1 with
  | nil =>
    show eventsFor nowStr loc (c :: l2) = eventsFor nowStr loc l2
    rw [eventsFor, h]
    cases h2 : eventsFor nowStr loc l2 <;> simp
  | cons a t ih =>
    show eventsFor nowStr loc (a :: (t ++ c :: l2)) = eventsFor nowStr loc (a :: (t ++ l2))
    rw [eventsFor, eventsFor, ih]

/-! ## Claim theorems -/

/-- C1 (counterexample): the two-number-range claim fails as stated at
the edge of the representable calendar: `'30 - 31 gru 9999'` has the
required shape — a recognized month token, a four-digit year, and two
valid days of that month — yet `parse_date_range_for_ics` returns the
unparseable result instead of the advanced date pair, because advancing
`9999-12-31` by one day raises `OverflowError`. -/
theorem C1_range_overflow_cex :
    parse_date_range_for_ics "30 - 31 gru 9999" = none ∧
    monthScan "30 - 31 gru 9999".data = some 12 ∧
    rangeScan "30 - 31 gru 9999".data = some (30, 31) ∧
    findFour "30 - 31 gru 9999".data = some 9999 ∧
    validYMD 9999 12 30 = true ∧ validYMD 9999 12 31 = true := by decide

/-- C1 (amended): for every date string in which the range pattern
`D1 - D2` matches, a month token is recognized, the year read (or the
fallback) has four significant digits, both days are valid days of that
month, and the end date is not the maximal representable date
`9999-12-31`, the function returns `(YYYYMMDD of (y, m, D1), YYYYMMDD of
(y, m, D2) advanced by one true-calendar day)`. -/
theorem C1_range_parse (s : String) (y m d1 d2 : Nat)
    (hy : (findFour s.data).getD 2026 = y)
    (hm : monthScan s.data = some m)
    (hr : rangeScan s.data = some (d1, d2))
    (hv1 : validYMD y m d1 = true) (hv2 : validYMD y m d2 = true)
    (h4 : 1000 ≤ y)
    (hmax : ¬(y = 9999 ∧ m = 12 ∧ d2 = 31)) :
    parse_date_range_for_ics s = some (fmtYMD y m d1, fmtT (dateSucc y m d2)) := by
  unfold parse_date_range_for_ics
  simp only [hy, hm, hr, hv1, hv2, Bool.and_self, if_true, nextDay, if_neg hmax]

/-- C1 (witness): the month-rollover example of the spec. -/
theorem C1_range_parse_witness :
    parse_date_range_for_ics "27 - 28 lut 2026" = some ("20260227", "20260301") :=
  (C1_range_parse "27 - 28 lut 2026" 2026 2 27 28 (by decide) (by decide) (by decide)
      (by decide) (by decide) (by decide) (by decide)).trans (by decide)

/-- C2 (counterexample): the single-day claim fails as stated at the
maximal representable date: `'31 gru 9999'` has a single leading day
number, a recognized month token and a valid date, yet the function
returns the unparseable result because `start + 1 day` overflows. -/
theorem C2_single_overflow_cex :
    parse_date_range_for_ics "31 gru 9999" = none ∧
    monthScan "31 gru 9999".data = some 12 ∧
    rangeScan "31 gru 9999".data = none ∧
    leadNum "31 gru 9999".data = some 31 ∧
    validYMD 9999 12 31 = true := by decide

/-- C2 (amended): for every date string with no two-number range
pattern, a single leading day number `D`, a recognized month token, a
year (read from the string, or the fixed fallback 2026 when no
four-digit group occurs) with four significant digits, a valid date
`(y, m, D)` other than the maximal representable date, the function
returns `(YYYYMMDD of (y, m, D), YYYYMMDD of the next true-calendar
day)` — rolling the year at December 31. -/
theorem C2_single_day_parse (s : String) (y m d : Nat)
    (hy : (findFour s.data).getD 2026 = y)
    (hm : monthScan s.data = some m)
    (hr : rangeScan s.data = none)
    (hl : leadNum s.data = some d)
    (hv : validYMD y m d = true)
    (h4 : 1000 ≤ y)
    (hmax : ¬(y = 9999 ∧ m = 12 ∧ d = 31)) :
    parse_date_range_for_ics s = some (fmtYMD y m d, fmtT (dateSucc y m d)) := by
  unfold parse_date_range_for_ics
  simp only [hy, hm, hr, hl, hv, if_true, nextDay, if_neg hmax]

/-- C2 (witness): the year-rollover example of the spec, and the
fallback year for a string with no four-digit year. -/
theorem C2_single_day_parse_witness :
    parse_date_range_for_ics "31 gru 2026" = some ("20261231", "20270101") ∧
    parse_date_range_for_ics "5 maj" = some ("20260505", "20260506") :=
  ⟨(C2_single_day_parse "31 gru 2026" 2026 12 31 (by decide) (by decide) (by decide)
      (by decide) (by decide) (by decide) (by decide)).trans (by decide),
   (C2_single_day_parse "5 maj" 2026 5 5 (by decide) (by decide) (by decide)
      (by decide) (by decide) (by decide) (by decide)).trans (by decide)⟩

/-- C3: `parse_date_range_for_ics` is a total function that yields the
unparseable result (`none`) whenever no month token is recognized, no
day number is found, or date construction would raise (an out-of-range
day for the month); and the calendar emitter skips a competition whose
date is unparseable — its event block is empty and the rest of the
batch is unaffected. -/
theorem C3_unparseable_never_raises :
    (∀ s : String, monthScan s.data = none → parse_date_range_for_ics s = none) ∧
    (∀ s : String, rangeScan s.data = none → leadNum s.data = none →
      parse_date_range_for_ics s = none) ∧
    (∀ (s : String) (m d1 d2 : Nat), monthScan s.data = some m →
      rangeScan s.data = some (d1, d2) →
      (validYMD ((findFour s.data).getD 2026) m d1 &&
        validYMD ((findFour s.data).getD 2026) m d2) = false →
      parse_date_range_for_ics s = none) ∧
    (∀ (s : String) (m d : Nat), monthScan s.data = some m →
      rangeScan s.data = none → leadNum s.data = some d →
      validYMD ((findFour s.data).getD 2026) m d = false →
      parse_date_range_for_ics s = none) ∧
    (∀ (nowStr loc : String) (comp : Comp) (d : String) (l1 l2 : List Comp),
      comp.date = some d → parse_date_range_for_ics d = none →
      renderComp nowStr loc comp = Except.ok [] ∧
      eventsFor nowStr loc (l1 ++ comp :: l2) = eventsFor nowStr loc (l1 ++ l2)) := by
  refine ⟨?_, ?_, ?_, ?_, ?_⟩
  · intro s h
    unfold parse_date_range_for_ics
    simp only [h]
  · intro s hr hl
    unfold parse_date_range_for_ics
    cases hm : monthScan s.data <;> simp only [hm, hr, hl]
  · intro s m d1 d2 hm hr hcond
    unfold parse_date_range_for_ics
    simp only [hm, hr, hcond, Bool.false_eq_true, if_false]
  · intro s m d hm hr hl hcond
    unfold parse_date_range_for_ics
    simp only [hm, hr, hl, hcond, Bool.false_eq_true, if_false]
  · intro nowStr loc comp d l1 l2 hd hp
    have hrc : renderComp nowStr loc comp = Except.ok [] := by
      simp only [renderComp, hd, hp]
    exact ⟨hrc, eventsFor_skip nowStr loc comp hrc l1 l2⟩

/-- C3 (witness): a no-month string parses to `none`; a competition with
an unparseable date contributes no event and is skipped. -/
theorem C3_unparseable_never_raises_witness :
    parse_date_range_for_ics "hello" = none ∧
    parse_date_range_for_ics "32 sty 2026" = none ∧
    renderComp "T" "L"
      { date := some "99 xyz", name := some "N", regulation_link := none,
        weapons := none } = Except.ok [] :=
  ⟨C3_unparseable_never_raises.1 "hello" (by decide),
   C3_unparseable_never_raises.2.2.2.1 "32 sty 2026" 1 32 (by decide) (by decide)
     (by decide) (by decide),
   (C3_unparseable_never_raises.2.2.2.2 "T" "L"
     { date := some "99 xyz", name := some "N", regulation_link := none, weapons := none }
     "99 xyz" [] [] rfl (by decide)).1⟩


theorem noDDb_tail {t a : Char} {l : List Char} (h : noDDb t (a :: l) = true) :
    noDDb t l = true := by
  cases l with
  | nil => rfl
  | cons b r =>
    rw [noDDb, Bool.and_eq_true] at h
    exact h.2

theorem squeezeRun_head (t b : Char) (r : List Char) :
    ∃ tl, squeezeRun t (b :: r) = b :: tl := by
  induction r generalizing b with
  | nil => exact ⟨[], rfl⟩
  | cons c r2 ih =>
    rw [squeezeRun]
    by_cases h : (b = t && c = t) = true
    · rw [if_pos h]
      rw [Bool.and_eq_true, decide_eq_true_iff, decide_eq_true_iff] at h
      obtain ⟨tl, htl⟩ := ih c
      exact ⟨tl, by rw [htl, h.1, h.2]⟩
    · rw [if_neg h]
      exact ⟨squeezeRun t (c :: r2), rfl⟩

theorem noDDb_squeezeRun (t : Char) (l : List Char) :
    noDDb t (squeezeRun t l) = true := by
  induction l with
  | nil => rfl
  | cons a r ih =>
    cases r with
    | nil => rfl
    | cons b r2 =>
      rw [squeezeRun]
      by_cases h : (a = t && b = t) = true
      · rw [if_pos h]; exact ih
      · rw [if_neg h]
        obtain ⟨tl, htl⟩ := squeezeRun_head t b r2
        rw [htl]
        rw [htl] at ih
        rw [noDDb, Bool.and_eq_true]
        exact ⟨by simp [h], ih⟩

theorem noDDb_dropWhile (t : Char) (p : Char → Bool) (l : List Char)
    (h : noDDb t l = true) : noDDb t (l.dropWhile p) = true := by
  induction l with
  | nil => exact h
  | cons a r ih =>
    rw [List.dropWhile_cons]
    by_cases hp : p a = true
    · rw [if_pos hp]; exact ih (noDDb_tail h)
    · rw [if_neg hp]; exact h

theorem dropTrailWhile_cons_ne_nil {p : Char → Bool} {x : Char} {r tl : List Char}
    (h : dropTrailWhile p (x :: r) = tl) (hne : tl ≠ []) :
    ∃ tl2, tl = x :: tl2 := by
  rw [dropTrailWhile] at h
  cases hdr : dropTrailWhile p r with
  | nil =>
    rw [hdr] at h
    by_cases hp : p x = true
    · rw [if_pos hp] at h; exact absurd h.symm hne
    · rw [if_neg hp] at h; exact ⟨[], h.symm⟩
  | cons y ys =>
    rw [hdr] at h
    exact ⟨y :: ys, h.symm⟩

theorem noDDb_dropTrailWhile (t : Char) (p : Char → Bool) (l : List Char)
    (h : noDDb t l = true) : noDDb t (dropTrailWhile p l) = true := by
  induction l with
  | nil => exact h
  | cons a r ih =>
    rw [dropTrailWhile]
    cases hdr : dropTrailWhile p r with
    | nil =>
      by_cases hp : p a = true
      · rw [if_pos hp]; rfl
      · rw [if_neg hp]; rfl
    | cons y ys =>
      have hr : noDDb t (y :: ys) = true := hdr ▸ ih (noDDb_tail h)
      cases r with
      | nil => simp [dropTrailWhile] at hdr
      | cons x r2 =>
        obtain ⟨tl2, htl2⟩ := dropTrailWhile_cons_ne_nil hdr (by simp)
        have hyx : y = x := (List.cons.injEq y ys x tl2).mp htl2 |>.1
        rw [noDDb, Bool.and_eq_true]
        constructor
        · rw [hyx]
          rw [noDDb, Bool.and_eq_true] at h
          exact h.1
        · exact hr

theorem dropTrailWhile_last {p : Char → Bool} {l : List Char} {c : Char}
    (h : (dropTrailWhile p l).getLast? = some c) : p c = false := by
  induction l with
  | nil => simp [dropTrailWhile] at h
  | cons a r ih =>
    rw [dropTrailWhile] at h
    cases hdr : dropTrailWhile p r with
    | nil =>
      rw [hdr] at h
      by_cases hp : p a = true
      · rw [if_pos hp] at h; simp at h
      · rw [if_neg hp] at h
        simp only [List.getLast?_singleton, Option.some.injEq] at h
        rw [h] at hp
        exact Bool.eq_false_iff.mpr hp
    | cons y ys =>
      rw [hdr] at h
      rw [List.getLast?_cons_cons] at h
      rw [← hdr] at h
      exact ih h

theorem mem_squeezeRun_of {t c : Char} {l : List Char}
    (h : c ∈ l) (hne : c ≠ t) : c ∈ squeezeRun t l := by
  induction l with
  | nil => cases h
  | cons a r ih =>
    cases r with
    | nil => exact h
    | cons b r2 =>
      rw [squeezeRun]
      by_cases hab : (a = t && b = t) = true
      · rw [if_pos hab]
        rw [Bool.and_eq_true, decide_eq_true_iff, decide_eq_true_iff] at hab
        rcases List.mem_cons.mp h with hca | hr
        · exact absurd (hca.trans hab.1) hne
        · exact ih hr
      · rw [if_neg hab]
        rcases List.mem_cons.mp h with hca | hr
        · exact hca ▸ List.mem_cons_self a _
        · exact List.mem_cons_of_mem a (ih hr)

theorem mem_dropWhile_of {p : Char → Bool} {c : Char} {l : List Char}
    (h : c ∈ l) (hc : p c = false) : c ∈ l.dropWhile p := by
  induction l with
  | nil => cases h
  | cons a r ih =>
    rw [List.dropWhile_cons]
    by_cases hp : p a = true
    · rw [if_pos hp]
      rcases List.mem_cons.mp h with hca | hr
      · rw [hca] at hc; rw [hc] at hp; cases hp
      · exact ih hr
    · rw [if_neg hp]; exact h

theorem dropTrailWhile_nil_all {p : Char → Bool} {l : List Char}
    (h : dropTrailWhile p l = []) : ∀ c ∈ l, p c = true := by
  induction l with
  | nil => intro c hc; cases hc
  | cons a r ih =>
    intro c hc
    rw [dropTrailWhile] at h
    cases hdr : dropTrailWhile p r with
    | nil =>
      rw [hdr] at h
      by_cases hp : p a = true
      · rcases List.mem_cons.mp hc with hca | hr
        · exact hca ▸ hp
        · exact ih hdr c hr
      · rw [if_neg hp] at h; cases h
    | cons y ys => rw [hdr] at h; cases h

theorem mem_dropTrailWhile_of {p : Char → Bool} {c : Char} {l : List Char}
    (h : c ∈ l) (hc : p c = false) : c ∈ dropTrailWhile p l := by
  induction l with
  | nil => cases h
  | cons a r ih =>
    rw [dropTrailWhile]
    cases hdr : dropTrailWhile p r with
    | nil =>
      rcases List.mem_cons.mp h with hca | hr
      · rw [hca] at hc ⊢
        rw [if_neg (by rw [hc]; exact Bool.false_ne_true)]
        exact List.mem_cons_self a []
      · have := dropTrailWhile_nil_all hdr c hr
        rw [this] at hc; cases hc
    | cons y ys =>
      rcases List.mem_cons.mp h with hca | hr
      · exact hca ▸ List.mem_cons_self a _
      · exact List.mem_cons_of_mem a (hdr ▸ ih hr)

theorem mem_map_slug {c : Char} {l : List Char}
    (h : c ∈ l.map (fun c => let c2 := lowerCh (applyRepl c); if isAl c2 then c2 else '_')) :
    isAl c = true ∨ c = '_' := by
  rcases List.mem_map.mp h with ⟨x, _, hx⟩
  by_cases hAl : isAl (lowerCh (applyRepl x)) = true
  · left; rw [← hx]; simpa [hAl] using hAl
  · right; rw [← hx]; simp [hAl]

theorem slugAccept_of : ∀ (n : Nat) (l : List Char), l.length ≤ n →
    (∀ c ∈ l, isAl c = true ∨ c = '_') → noDDb '_' l = true →
    l.getLast? ≠ some '_' → slugAccept true l = true := by
  intro n
  induction n with
  | zero =>
    intro l hl _ _ _
    rw [List.length_eq_zero.mp (Nat.le_zero.mp hl)]
    rfl
  | succ n ih =>
    intro l hl hch hdd hlast
    cases l with
    | nil => rfl
    | cons c r =>
      rw [slugAccept]
      by_cases hAl : isAl c = true
      · rw [if_pos hAl]
        cases r with
        | nil => rfl
        | cons d r2 =>
          exact ih (d :: r2) (by simpa using Nat.lt_succ_iff.mp (by simpa using hl))
            (fun x hx => hch x (List.mem_cons_of_mem c hx)) (noDDb_tail hdd)
            (by rw [← List.getLast?_cons_cons]; exact hlast)
      · rw [if_neg hAl]
        have hcu : c = '_' := (hch c (List.mem_cons_self c r)).resolve_left hAl
        cases r with
        | nil => exact absurd (by rw [hcu]; rfl) hlast
        | cons d r2 =>
          have hdne : ¬(d = '_') := by
            rw [noDDb, Bool.and_eq_true] at hdd
            have := hdd.1
            intro hdu
            rw [hcu, hdu] at this
            simp at this
          have hdAl : isAl d = true :=
            (hch d (List.mem_cons_of_mem c (List.mem_cons_self d r2))).resolve_right hdne
          rw [if_pos (by rw [hcu]; simp)]
          rw [slugAccept, if_pos hdAl]
          apply ih r2
          · have : (c :: d :: r2).length = r2.length + 2 := by simp
            omega
          · exact fun x hx =>
              hch x (List.mem_cons_of_mem c (List.mem_cons_of_mem d hx))
          · exact noDDb_tail (noDDb_tail hdd)
          · cases r2 with
            | nil => simp
            | cons e r3 =>
              rw [← List.getLast?_cons_cons, ← List.getLast?_cons_cons]
              exact hlast

theorem mem_of_mem_squeezeRun {t c : Char} {l : List Char}
    (h : c ∈ squeezeRun t l) : c ∈ l := by
  induction l with
  | nil => cases h
  | cons a r ih =>
    cases r with
    | nil => exact h
    | cons b r2 =>
      rw [squeezeRun] at h
      by_cases hab : (a = t && b = t) = true
      · rw [if_pos hab] at h
        exact List.mem_cons_of_mem a (ih h)
      · rw [if_neg hab] at h
        rcases List.mem_cons.mp h with hca | hr
        · exact hca ▸ List.mem_cons_self a _
        · exact List.mem_cons_of_mem a (ih hr)

theorem mem_of_mem_dropTrailWhile {p : Char → Bool} {c : Char} {l : List Char}
    (h : c ∈ dropTrailWhile p l) : c ∈ l := by
  induction l with
  | nil => cases h
  | cons a r ih =>
    rw [dropTrailWhile] at h
    cases hdr : dropTrailWhile p r with
    | nil =>
      rw [hdr] at h
      by_cases hp : p a = true
      · rw [if_pos hp] at h; cases h
      · rw [if_neg hp] at h
        rcases List.mem_cons.mp h with hca | hr
        · exact hca ▸ List.mem_cons_self a _
        · cases hr
    | cons y ys =>
      rw [hdr] at h
      rcases List.mem_cons.mp h with hca | hr
      · exact hca ▸ List.mem_cons_self a _
      · exact List.mem_cons_of_mem a (ih (hdr ▸ hr))

theorem mem_of_mem_dropWhile {p : Char → Bool} {c : Char} {l : List Char}
    (h : c ∈ l.dropWhile p) : c ∈ l := by
  induction l with
  | nil => cases h
  | cons a r ih =>
    rw [List.dropWhile_cons] at h
    by_cases hp : p a = true
    · rw [if_pos hp] at h
      exact List.mem_cons_of_mem a (ih h)
    · rw [if_neg hp] at h
      exact h

/-- C9: for every input string, the `generate_slug` output matches
`^[a-z0-9]*(_[a-z0-9]+)*$` (the empty string matches too), contains no
national diacritic of the transliteration table, and — since it is a
pure Lean function, determinism is inherent — is empty only when no
input character is alphanumeric after transliteration and
lower-casing. -/
theorem C9_slug_shape (s : String) :
    slugMatches (generate_slug s).data = true ∧
    (∀ c ∈ (generate_slug s).data, c ∉ polishChars) ∧
    (generate_slug s = "" → ∀ c ∈ s.data, isAl (lowerCh (applyRepl c)) = false) := by
  have hout : (generate_slug s).data =
      dropTrailWhile (fun c => c = '_')
        ((squeezeRun '_' (s.data.map (fun c =>
          let c2 := lowerCh (applyRepl c)
          if isAl c2 then c2 else '_'))).dropWhile (fun c => c = '_')) := rfl
  have hchars : ∀ c ∈ (generate_slug s).data, isAl c = true ∨ c = '_' := by
    intro c hc
    rw [hout] at hc
    exact mem_map_slug (mem_of_mem_squeezeRun (mem_of_mem_dropWhile
      (mem_of_mem_dropTrailWhile hc)))
  refine ⟨?_, ?_, ?_⟩
  · apply slugAccept_of (generate_slug s).data.length _ le_rfl hchars
    · rw [hout]
      exact noDDb_dropTrailWhile _ _ _ (noDDb_dropWhile _ _ _ (noDDb_squeezeRun _ _))
    · intro hlast
      rw [hout] at hlast
      have := dropTrailWhile_last hlast
      simp at this
  · intro c hc hpol
    have hpolFacts : ∀ x ∈ polishChars, isAl x = false ∧ ¬(x = '_') := by decide
    rcases hchars c hc with hAl | hu
    · rw [(hpolFacts c hpol).1] at hAl; cases hAl
    · exact (hpolFacts c hpol).2 hu
  · intro hempty c hc
    by_contra hAl'
    have hAl : isAl (lowerCh (applyRepl c)) = true := by
      cases hb : isAl (lowerCh (applyRepl c))
      · exact absurd hb hAl'
      · rfl
    have hc2ne : ¬(lowerCh (applyRepl c) = '_') := by
      intro h
      rw [h] at hAl
      exact absurd hAl (by decide)
    have hc2 : lowerCh (applyRepl c) ∈ s.data.map (fun c =>
        let c2 := lowerCh (applyRepl c)
        if isAl c2 then c2 else '_') := by
      apply List.mem_map.mpr
      exact ⟨c, hc, by simp [hAl]⟩
    have hfin : lowerCh (applyRepl c) ∈ (generate_slug s).data := by
      rw [hout]
      exact mem_dropTrailWhile_of
        (mem_dropWhile_of (mem_squeezeRun_of hc2 hc2ne) (decide_eq_false hc2ne))
        (decide_eq_false hc2ne)
    rw [hempty] at hfin
    cases hfin

/-- C9 (witness): a concrete slug matches the pattern, and an
all-punctuation input maps to the empty slug with every character
non-alphanumeric after transliteration. -/
theorem C9_slug_shape_witness :
    slugMatches (generate_slug "Klub Śląski ŻĄDŁO 123!!").data = true ∧
    generate_slug "?!" = "" ∧
    isAl (lowerCh (applyRepl '?')) = false :=
  ⟨(C9_slug_shape "Klub Śląski ŻĄDŁO 123!!").1,
   by decide,
   (C9_slug_shape "?!").2.2 (by decide) '?' (by decide)⟩

theorem lookupA_eq_none {α β : Type} [DecidableEq α] (l : List (α × β)) (k : α) :
    lookupA l k = none ↔ k ∉ l.map Prod.fst := by
  induction l with
  | nil => simp [lookupA]
  | cons p t ih =>
    obtain ⟨a, b⟩ := p
    rw [lookupA]
    by_cases h : k = a
    · simp [h]
    · simp [h, ih]

theorem lookupA_append_single {α β : Type} [DecidableEq α] (l : List (α × β))
    (k k' : α) (v : β) :
    lookupA (l ++ [(k', v)]) k =
      match lookupA l k with
      | some w => some w
      | none => if k = k' then some v else none := by
  induction l with
  | nil => rfl
  | cons p t ih =>
    obtain ⟨a, b⟩ := p
    rw [List.cons_append, lookupA, lookupA]
    by_cases h : k = a
    · simp [h]
    · simp only [if_neg h, ih]

theorem lookupA_modifyA {α β : Type} [DecidableEq α] (l : List (α × β))
    (k k2 : α) (f : β → β) :
    lookupA (modifyA l k f) k2 =
      if k2 = k then (lookupA l k).map f else lookupA l k2 := by
  induction l with
  | nil => simp [modifyA, lookupA]
  | cons p t ih =>
    obtain ⟨a, b⟩ := p
    simp only [modifyA] at ih ⊢
    rw [List.map_cons]
    show lookupA ((if a = k then (a, f b) else (a, b)) ::
      List.map (fun p => if p.1 = k then (p.1, f p.2) else p) t) k2 = _
    by_cases hak : a = k
    · subst hak
      rw [if_pos rfl]
      by_cases hk2 : k2 = a
      · subst hk2
        rw [lookupA, if_pos rfl, if_pos rfl, lookupA, if_pos rfl]
        rfl
      · rw [lookupA, if_neg hk2, ih, if_neg hk2, if_neg hk2, lookupA, if_neg hk2]
    · rw [if_neg hak]
      have hka : ¬(k = a) := fun h => hak h.symm
      by_cases hk2a : k2 = a
      · have hk2k : ¬(k2 = k) := fun h => hak (hk2a.symm.trans h)
        rw [lookupA, if_pos hk2a, if_neg hk2k, lookupA, if_pos hk2a]
      · rw [lookupA, if_neg hk2a, ih]
        by_cases hk2k : k2 = k
        · rw [if_pos hk2k, if_pos hk2k, lookupA, if_neg hka]
        · rw [if_neg hk2k, if_neg hk2k, lookupA, if_neg hk2a]

theorem keys_modifyA {α β : Type} [DecidableEq α] (l : List (α × β)) (k : α)
    (f : β → β) : (modifyA l k f).map Prod.fst = l.map Prod.fst := by
  rw [modifyA, List.map_map]
  apply List.map_congr_left
  intro p _
  by_cases h : p.1 = k <;> simp [h]

theorem concatComps_cons (r : LocRec) (rest : List LocRec) (c : String) :
    concatComps (r :: rest) c =
      if r.club = c then r.comps ++ concatComps rest c else concatComps rest c := rfl

theorem groupGo_lookup : ∀ (rs : List LocRec) (st : List (String × ClubCal)) (c : String),
    lookupA (rs.foldl groupStep st) c =
      match lookupA st c with
      | some d => some { comps := d.comps ++ concatComps rs c, location := d.location }
      | none =>
        match rs.find? (fun r => r.club == c) with
        | some r0 => some { comps := concatComps rs c, location := r0.location }
        | none => none := by
  intro rs
  induction rs with
  | nil =>
    intro st c
    cases hst : lookupA st c with
    | none => simp [hst]
    | some d => simp [concatComps, hst]
  | cons r rest ih =>
    intro st c
    rw [List.foldl_cons, ih]
    by_cases hc : c = r.club
    · cases hst : lookupA st r.club with
      | some d =>
        have hstc : lookupA st c = some d := by rw [hc]; exact hst
        have hgs : lookupA (groupStep st r) c =
            some { comps := d.comps ++ r.comps, location := d.location } := by
          simp only [groupStep, hst]
          rw [lookupA_modifyA, if_pos hc, hst]
          rfl
        rw [hgs, hstc]
        simp [concatComps_cons, hc, List.append_assoc]
      | none =>
        have hstc : lookupA st c = none := by rw [hc]; exact hst
        have hgs : lookupA (groupStep st r) c =
            some { comps := r.comps, location := r.location } := by
          simp only [groupStep, hst]
          rw [lookupA_modifyA, if_pos hc, lookupA_append_single, hst]
          simp
        rw [hgs, hstc]
        rw [List.find?_cons_of_pos _ (by simp [hc])]
        simp [concatComps_cons, hc]
    · have hbc : (r.club == c) = false := by
        simp only [beq_eq_false_iff_ne, ne_eq]
        exact fun h => hc h.symm
      have hgs : lookupA (groupStep st r) c = lookupA st c := by
        simp only [groupStep]
        rw [lookupA_modifyA, if_neg hc]
        cases hst : lookupA st r.club with
        | some d => rfl
        | none =>
          rw [lookupA_append_single]
          cases hstc : lookupA st c with
          | some w => rfl
          | none => rw [if_neg hc]
      have hfind : List.find? (fun r => r.club == c) (r :: rest) =
          List.find? (fun r => r.club == c) rest :=
        List.find?_cons_of_neg _ (by simp [hbc])
      have hcat : concatComps (r :: rest) c = concatComps rest c := by
        rw [concatComps_cons, if_neg (fun h : r.club = c => hc h.symm)]
      rw [hgs]
      simp only [hfind, hcat]

theorem groupGo_keys_mem : ∀ (rs : List LocRec) (st : List (String × ClubCal)) (c : String),
    c ∈ (rs.foldl groupStep st).map Prod.fst ↔
      c ∈ st.map Prod.fst ∨ c ∈ rs.map (fun r => r.club) := by
  intro rs
  induction rs with
  | nil => intro st c; simp
  | cons r rest ih =>
    intro st c
    rw [List.foldl_cons, ih]
    have hkeys : (groupStep st r).map Prod.fst =
        (match lookupA st r.club with
         | none => st.map Prod.fst ++ [r.club]
         | some _ => st.map Prod.fst) := by
      simp only [groupStep]
      rw [keys_modifyA]
      cases hst : lookupA st r.club with
      | none => simp
      | some d => rfl
    cases hst : lookupA st r.club with
    | none =>
      rw [hkeys, hst]
      simp only [List.mem_append, List.mem_singleton, List.map_cons, List.mem_cons]
      tauto
    | some d =>
      rw [hkeys, hst]
      have hr : r.club ∈ st.map Prod.fst := by
        by_contra hno
        rw [← lookupA_eq_none st r.club] at hno
        rw [hst] at hno
        cases hno
      simp only [List.map_cons, List.mem_cons]
      constructor
      · tauto
      · rintro (h | h | h)
        · exact Or.inl h
        · exact Or.inl (h ▸ hr)
        · exact Or.inr h

theorem groupGo_keys_nodup : ∀ (rs : List LocRec) (st : List (String × ClubCal)),
    (st.map Prod.fst).Nodup → ((rs.foldl groupStep st).map Prod.fst).Nodup := by
  intro rs
  induction rs with
  | nil => intro st h; exact h
  | cons r rest ih =>
    intro st h
    rw [List.foldl_cons]
    apply ih
    simp only [groupStep]
    rw [keys_modifyA]
    cases hst : lookupA st r.club with
    | some d => exact h
    | none =>
      have hno : r.club ∉ st.map Prod.fst := (lookupA_eq_none st r.club).mp hst
      simp [List.nodup_append, h, hno]

/-- C5 (counterexample): the calendar grouping keeps the FIRST-seen
location text of a club, not the last-seen one as claimed: with two
records of club `"A"` at locations `"L1"` then `"L2"`, the calendar's
generic location field is `"L1"`. -/
theorem C5_last_location_cex :
    lookupA (groupClubs
      [{ club := "A", location := "L1", latitude := none, longitude := none,
         website := "", comps := [] },
       { club := "A", location := "L2", latitude := none, longitude := none,
         website := "", comps := [] }]) "A" =
      some { comps := [], location := "L1" } ∧ ("L1" : String) ≠ "L2" := by
  constructor
  · rfl
  · decide

/-- C5 (amended): the calendar emitter produces exactly one calendar per
distinct club name (the grouped keys are exactly the input club names,
without duplicates), concatenating all of that club's competitions
across its locations in input order, and the calendar's generic
location field equals the location text of the FIRST-seen entry for
that club in input order. -/
theorem C5_group_by_club (rs : List LocRec) :
    ((groupClubs rs).map Prod.fst).Nodup ∧
    (∀ c, c ∈ (groupClubs rs).map Prod.fst ↔ c ∈ rs.map (fun r => r.club)) ∧
    (∀ (c : String) (r0 : LocRec), rs.find? (fun r => r.club == c) = some r0 →
      lookupA (groupClubs rs) c =
        some { comps := concatComps rs c, location := r0.location }) := by
  refine ⟨?_, ?_, ?_⟩
  · exact groupGo_keys_nodup rs [] (by simp)
  · intro c
    rw [groupClubs, groupGo_keys_mem]
    simp [lookupA]
  · intro c r0 hfind
    rw [groupClubs, groupGo_lookup]
    simp only [lookupA, hfind]

/-- C5 (witness): the grouping applied to two records of one club. -/
theorem C5_group_by_club_witness :
    lookupA (groupClubs
      [{ club := "B", location := "M1", latitude := none, longitude := none,
         website := "",
         comps := [{ date := some "d1", name := none, regulation_link := none,
                     weapons := none }] },
       { club := "B", location := "M2", latitude := none, longitude := none,
         website := "",
         comps := [{ date := some "d2", name := none, regulation_link := none,
                     weapons := none }] }]) "B" =
      some { comps := [{ date := some "d1", name := none, regulation_link := none,
                         weapons := none },
                       { date := some "d2", name := none, regulation_link := none,
                         weapons := none }], location := "M1" } := by
  have h := (C5_group_by_club
    [{ club := "B", location := "M1", latitude := none, longitude := none,
       website := "",
       comps := [{ date := some "d1", name := none, regulation_link := none,
                   weapons := none }] },
     { club := "B", location := "M2", latitude := none, longitude := none,
       website := "",
       comps := [{ date := some "d2", name := none, regulation_link := none,
                   weapons := none }] }]).2.2 "B"
    { club := "B", location := "M1", latitude := none, longitude := none,
      website := "",
      comps := [{ date := some "d1", name := none, regulation_link := none,
                  weapons := none }] } rfl
  exact h.trans rfl

/-- C10: calendar emission is only total on competitions carrying a
`date` key and, when the date parses, a `name` key: a record whose
competition lacks `date` (or lacks `name` with a parseable date) makes
`save_calendars` raise `KeyError` and abort the whole batch — the
second club's calendar is not produced either. -/
theorem C10_missing_keys_abort :
    save_calendars "T"
      [{ club := "K", location := "L", latitude := none, longitude := none,
         website := "",
         comps := [{ date := none, name := some "X", regulation_link := none,
                     weapons := none }] },
       { club := "Other", location := "L2", latitude := none, longitude := none,
         website := "", comps := [] }] = Except.error "KeyError: date" ∧
    save_calendars "T"
      [{ club := "K", location := "L", latitude := none, longitude := none,
         website := "",
         comps := [{ date := some "10 sty 2026", name := none,
                     regulation_link := none, weapons := none }] },
       { club := "Other", location := "L2", latitude := none, longitude := none,
         website := "", comps := [] }] = Except.error "KeyError: name" :=
  ⟨rfl, rfl⟩

theorem pass1_lookup : ∀ (es : List Entry) (st : List (String × String)) (c : String),
    lookupA (es.foldl pass1step st) c =
      match lookupA st c with
      | some w => some w
      | none =>
        if specFirstSite es c ≠ "" then some (specFirstSite es c) else none := by
  intro es
  induction es with
  | nil =>
    intro st c
    cases hst : lookupA st c with
    | none => simp [specFirstSite, firstNE, hst]
    | some w => simp [hst]
  | cons e rest ih =>
    intro st c
    rw [List.foldl_cons, ih]
    cases hclub : e.club with
    | none =>
      have hstep : pass1step st e = st := by rw [pass1step, hclub]
      have hspec : specFirstSite (e :: rest) c = specFirstSite rest c := by
        simp only [specFirstSite, List.filterMap_cons, hclub]
      rw [hstep, hspec]
    | some cp =>
      cases hreg : regAnchorOf e with
      | none =>
        have hstep : pass1step st e = st := by rw [pass1step, hclub, hreg]
        have hspec : specFirstSite (e :: rest) c = specFirstSite rest c := by
          simp only [specFirstSite, List.filterMap_cons, hclub, hreg]
          by_cases hcp : trimStr cp = c <;> simp [hcp]
        rw [hstep, hspec]
      | some a =>
        by_cases hcp : trimStr cp = c
        · have hspec : specFirstSite (e :: rest) c =
              if joinTake3 a.href ≠ "" then joinTake3 a.href
              else specFirstSite rest c := by
            simp only [specFirstSite, List.filterMap_cons, hclub, hreg, hcp]
            simp [firstNE]
          by_cases hwater : joinTake3 a.href = ""
          · have hstep : pass1step st e = st := by
              simp only [pass1step, hclub, hreg]
              simp [hwater]
            rw [hstep, hspec]
            simp [hwater]
          · cases hstc : lookupA st c with
            | some w0 =>
              have hstcp : lookupA st (trimStr cp) = some w0 := by rw [hcp, hstc]
              have hstep : pass1step st e = st := by
                simp only [pass1step, hclub, hreg]
                simp [hstcp]
              rw [hstep, hstc]
            | none =>
              have hstcp : lookupA st (trimStr cp) = none := by rw [hcp, hstc]
              have hstep : pass1step st e =
                  st ++ [(trimStr cp, joinTake3 a.href)] := by
                simp only [pass1step, hclub, hreg]
                simp [hstcp, hwater]
              rw [hstep, lookupA_append_single, hstc, hspec]
              simp [hcp.symm, hwater]
        · have hspec : specFirstSite (e :: rest) c = specFirstSite rest c := by
            simp only [specFirstSite, List.filterMap_cons, hclub, hreg]
            simp [hcp]
          have hl : lookupA (pass1step st e) c = lookupA st c := by
            simp only [pass1step, hclub, hreg]
            by_cases hcond : joinTake3 a.href ≠ "" ∧ lookupA st (trimStr cp) = none
            · rw [if_pos hcond, lookupA_append_single]
              cases hstc : lookupA st c with
              | some w0 => rfl
              | none => rw [if_neg (fun h => hcp h.symm)]
            · rw [if_neg hcond]
          rw [hl, hspec]

/-- C4 (counterexample): the recorded website guess is NOT each entry's
own link reduction: with two entries of club `"A"`, the first carrying
regulation link `http://x/a/b` and the second `http://y/c/d`, the
recorded guess for `"A"` is `http://x` — the second entry's reduction
`http://y` is ignored because the first guess per club wins. -/
theorem C4_second_link_ignored_cex :
    lookupA (club_websites
      [Node.monthHeader,
       Node.compEntry
         { club := some "A", location := some "L1", dateTxt := none, nameTxt := none,
           anchors := [{ href := "http://x/a/b", txt := "Regulamin" }],
           weapons := none },
       Node.compEntry
         { club := some "A", location := some "L2", dateTxt := none, nameTxt := none,
           anchors := [{ href := "http://y/c/d", txt := "Regulamin" }],
           weapons := none }]) "A" = some "http://x" ∧
    joinTake3 "http://y/c/d" = "http://y" ∧
    ("http://x" : String) ≠ "http://y" := by
  refine ⟨rfl, rfl, ?_⟩
  decide

/-- C4 (amended): the website guess recorded for a club is the
first-three-path-segments reduction (`"/".join(href.split("/")[:3])`) of
the FIRST regulation link with non-empty reduction among that club's
competition entries in document order; clubs with no such link get no
guess. -/
theorem C4_first_site_per_club (doc : List Node) (c : String) :
    lookupA (club_websites doc) c =
      if specFirstSite (entriesInSections doc) c ≠ ""
      then some (specFirstSite (entriesInSections doc) c) else none := by
  rw [club_websites, pass1_lookup]
  rfl

theorem lookupA_mem {α β : Type} [DecidableEq α] {l : List (α × β)} {k : α} {v : β}
    (h : lookupA l k = some v) : (k, v) ∈ l := by
  induction l with
  | nil => cases h
  | cons p t ih =>
    obtain ⟨a, b⟩ := p
    rw [lookupA] at h
    by_cases hk : k = a
    · rw [if_pos hk] at h
      cases h
      exact hk ▸ List.mem_cons_self _ _
    · rw [if_neg hk] at h
      exact List.mem_cons_of_mem _ (ih h)

theorem mem_modifyA {α β : Type} [DecidableEq α] {l : List (α × β)} {k : α}
    {f : β → β} {p : α × β} (hp : p ∈ modifyA l k f) :
    ∃ q ∈ l, p = if q.1 = k then (q.1, f q.2) else q := by
  rcases List.mem_map.mp hp with ⟨q, hq, heq⟩
  exact ⟨q, hq, heq.symm⟩


theorem pass2step_inv (sites : List (String × String)) (L : Ledger) (st : St)
    (e : Entry) (h : ∀ p ∈ st.1, recInv sites L p) :
    ∀ p ∈ (pass2step sites L st e).1, recInv sites L p := by
  intro p hp
  cases hclub : e.club with
  | none =>
    rw [pass2step, hclub] at hp
    exact h p hp
  | some cp =>
    cases hloc : e.location with
    | none =>
      rw [pass2step, hclub, hloc] at hp
      exact h p hp
    | some lp =>
      rw [pass2step, hclub, hloc] at hp
      simp only at hp
      -- name the intermediate states
      set key : String × String :=
        (trimStr cp, sanitize_location (trimStr lp)) with hkey
      set website := pwOf sites (trimStr cp) with hweb
      set newRec : LocRec :=
        { club := trimStr cp, location := trimStr lp,
          latitude := lkpLat L (sanitize_location (trimStr lp)),
          longitude := lkpLon L (sanitize_location (trimStr lp)),
          website := if website ≠ "" then website
                     else lkpWeb L (sanitize_location (trimStr lp)),
          comps := [] } with hnew
      have hnewInv : recInv sites L (key, newRec) := by
        refine ⟨?_, rfl, rfl, ?_⟩
        · simp [hnew, hkey, sanitize_location, trimStr]
        · simp only [hnew, hkey, hweb]
      have hrecs1 : ∀ q ∈ (match lookupA st.1 key with
          | none => st.1 ++ [(key, newRec)]
          | some _ => st.1), recInv sites L q := by
        intro q hq
        cases hlk : lookupA st.1 key with
        | none =>
          rw [hlk] at hq
          rcases List.mem_append.mp hq with hq1 | hq2
          · exact h q hq1
          · rw [List.mem_singleton.mp hq2]
            exact hnewInv
        | some r0 =>
          rw [hlk] at hq
          exact h q hq
      have hrecs2 : ∀ q ∈ (if website ≠ "" then
          modifyA (match lookupA st.1 key with
            | none => st.1 ++ [(key, newRec)]
            | some _ => st.1) key
            (fun r => if r.website = "" then { r with website := website } else r)
          else (match lookupA st.1 key with
            | none => st.1 ++ [(key, newRec)]
            | some _ => st.1)), recInv sites L q := by
        intro q hq
        by_cases hwne : website ≠ ""
        · rw [if_pos hwne] at hq
          rcases mem_modifyA hq with ⟨q0, hq0, heq⟩
          have hinv0 := hrecs1 q0 hq0
          by_cases hqk : q0.1 = key
          · have hq0w : q0.2.website = website := by
              have hw4 := hinv0.2.2.2
              rw [hqk] at hw4
              simpa [hweb, if_pos hwne] using hw4
            have hnoop : (if q0.2.website = "" then { q0.2 with website := website }
                else q0.2) = q0.2 := by
              rw [hq0w, if_neg hwne]
            rw [heq, if_pos hqk]
            show recInv sites L (q0.1,
              if q0.2.website = "" then { q0.2 with website := website } else q0.2)
            rw [hnoop]
            exact hinv0
          · rw [heq, if_neg hqk]
            exact hinv0
        · rw [if_neg hwne] at hq
          exact hrecs1 q hq
      by_cases hcne : compNonempty (compOf e) = true
      · rw [if_pos hcne] at hp
        rcases mem_modifyA hp with ⟨q0, hq0, heq⟩
        have hinv0 := hrecs2 q0 hq0
        by_cases hqk : q0.1 = key
        · rw [heq, if_pos hqk]
          exact ⟨hinv0.1, hinv0.2.1, hinv0.2.2.1, hinv0.2.2.2⟩
        · rw [heq, if_neg hqk]
          exact hinv0
      · rw [if_neg hcne] at hp
        exact hrecs2 p hp

theorem pass2_inv (sites : List (String × String)) (L : Ledger) :
    ∀ (es : List Entry) (st : St), (∀ p ∈ st.1, recInv sites L p) →
      ∀ p ∈ (es.foldl (pass2step sites L) st).1, recInv sites L p := by
  intro es
  induction es with
  | nil => intro st h; exact h
  | cons e rest ih =>
    intro st h
    rw [List.foldl_cons]
    exact ih (pass2step sites L st e) (pass2step_inv sites L st e h)

theorem pass2step_keys_mono (sites : List (String × String)) (L : Ledger) (st : St)
    (e : Entry) (k : String × String)
    (h : k ∈ st.1.map Prod.fst) : k ∈ (pass2step sites L st e).1.map Prod.fst := by
  cases hclub : e.club with
  | none => rw [pass2step, hclub]; exact h
  | some cp =>
    cases hloc : e.location with
    | none => rw [pass2step, hclub, hloc]; exact h
    | some lp =>
      rw [pass2step, hclub, hloc]
      simp only
      by_cases hcne : compNonempty (compOf e) = true
      · rw [if_pos hcne, keys_modifyA]
        by_cases hwne : pwOf sites (trimStr cp) ≠ ""
        · rw [if_pos hwne, keys_modifyA]
          cases hlk : lookupA st.1 (trimStr cp, sanitize_location (trimStr lp)) with
          | none =>
            simp only [hlk, List.map_append]
            exact List.mem_append_left _ h
          | some r => simp only [hlk]; exact h
        · rw [if_neg hwne]
          cases hlk : lookupA st.1 (trimStr cp, sanitize_location (trimStr lp)) with
          | none =>
            simp only [hlk, List.map_append]
            exact List.mem_append_left _ h
          | some r => simp only [hlk]; exact h
      · rw [if_neg hcne]
        by_cases hwne : pwOf sites (trimStr cp) ≠ ""
        · rw [if_pos hwne, keys_modifyA]
          cases hlk : lookupA st.1 (trimStr cp, sanitize_location (trimStr lp)) with
          | none =>
            simp only [hlk, List.map_append]
            exact List.mem_append_left _ h
          | some r => simp only [hlk]; exact h
        · rw [if_neg hwne]
          cases hlk : lookupA st.1 (trimStr cp, sanitize_location (trimStr lp)) with
          | none =>
            simp only [hlk, List.map_append]
            exact List.mem_append_left _ h
          | some r => simp only [hlk]; exact h

theorem pass2step_key_in (sites : List (String × String)) (L : Ledger) (st : St)
    (e : Entry) (cp lp : String) (hc : e.club = some cp) (hl : e.location = some lp) :
    (trimStr cp, sanitize_location (trimStr lp)) ∈
      (pass2step sites L st e).1.map Prod.fst := by
  have hbase : (trimStr cp, sanitize_location (trimStr lp)) ∈
      (match lookupA st.1 (trimStr cp, sanitize_location (trimStr lp)) with
       | none => st.1 ++ [((trimStr cp, sanitize_location (trimStr lp)),
           ({ club := trimStr cp, location := trimStr lp,
              latitude := lkpLat L (sanitize_location (trimStr lp)),
              longitude := lkpLon L (sanitize_location (trimStr lp)),
              website := if pwOf sites (trimStr cp) ≠ "" then pwOf sites (trimStr cp)
                         else lkpWeb L (sanitize_location (trimStr lp)),
              comps := [] } : LocRec))]
       | some _ => st.1).map Prod.fst := by
    cases hlk : lookupA st.1 (trimStr cp, sanitize_location (trimStr lp)) with
    | none =>
      simp only [List.map_append]
      apply List.mem_append_right
      simp
    | some r =>
      have : (trimStr cp, sanitize_location (trimStr lp)) ∈ st.1.map Prod.fst := by
        by_contra hno
        rw [← lookupA_eq_none] at hno
        rw [hlk] at hno
        cases hno
      exact this
  rw [pass2step, hc, hl]
  simp only
  by_cases hcne : compNonempty (compOf e) = true
  · rw [if_pos hcne, keys_modifyA]
    by_cases hwne : pwOf sites (trimStr cp) ≠ ""
    · rw [if_pos hwne, keys_modifyA]; exact hbase
    · rw [if_neg hwne]; exact hbase
  · rw [if_neg hcne]
    by_cases hwne : pwOf sites (trimStr cp) ≠ ""
    · rw [if_pos hwne, keys_modifyA]; exact hbase
    · rw [if_neg hwne]; exact hbase

theorem pass2_keys_mono (sites : List (String × String)) (L : Ledger) :
    ∀ (es : List Entry) (st : St) (k : String × String),
      k ∈ st.1.map Prod.fst →
      k ∈ ((es.foldl (pass2step sites L) st).1).map Prod.fst := by
  intro es
  induction es with
  | nil => intro st k h; exact h
  | cons e rest ih =>
    intro st k h
    rw [List.foldl_cons]
    exact ih (pass2step sites L st e) k (pass2step_keys_mono sites L st e k h)

/-- C6: in a document whose (only) month section holds two competition
entries with the same club and the same sanitized location, where the
first entry has no regulation anchor and the second carries one whose
first-three-segments reduction is non-empty, the final record for that
key has exactly that derived website — the two-pass design even fills
it at record creation, so the backfill is never lost. -/
theorem C6_backfilled_website (L : Ledger) (c l1 l2 : String) (e1 e2 : Entry)
    (a : Anchor)
    (h1c : e1.club = some c) (h1l : e1.location = some l1)
    (h2c : e2.club = some c) (h2l : e2.location = some l2)
    (hsan : sanitize_location (trimStr l2) = sanitize_location (trimStr l1))
    (h1r : regAnchorOf e1 = none)
    (h2r : regAnchorOf e2 = some a)
    (hw : joinTake3 a.href ≠ "") :
    (lookupA (parse_competitions
        [Node.monthHeader, Node.compEntry e1, Node.compEntry e2] L []).1
        (trimStr c, sanitize_location (trimStr l1))).map (fun r => r.website) =
      some (joinTake3 a.href) := by
  have hes : entriesInSections
      [Node.monthHeader, Node.compEntry e1, Node.compEntry e2] = [e1, e2] := rfl
  have hsites : club_websites
      [Node.monthHeader, Node.compEntry e1, Node.compEntry e2] =
      [(trimStr c, joinTake3 a.href)] := by
    rw [club_websites, hes, List.foldl_cons, List.foldl_cons, List.foldl_nil]
    have h1 : pass1step [] e1 = [] := by rw [pass1step, h1c, h1r]
    rw [h1]
    simp only [pass1step, h2c, h2r]
    rw [if_pos ⟨hw, rfl⟩]
    rfl
  have hpw : pwOf (club_websites
      [Node.monthHeader, Node.compEntry e1, Node.compEntry e2]) (trimStr c) =
      joinTake3 a.href := by
    rw [hsites]
    simp [pwOf, lookupA]
  have hfold : parse_competitions
      [Node.monthHeader, Node.compEntry e1, Node.compEntry e2] L [] =
      [e1, e2].foldl (pass2step (club_websites
        [Node.monthHeader, Node.compEntry e1, Node.compEntry e2]) L) (([], []) : St) :=
    rfl
  have hkeys : (trimStr c, sanitize_location (trimStr l1)) ∈
      (parse_competitions
        [Node.monthHeader, Node.compEntry e1, Node.compEntry e2] L []).1.map
          Prod.fst := by
    rw [hfold, List.foldl_cons]
    apply pass2_keys_mono
    exact pass2step_key_in _ L ([], []) e1 c l1 h1c h1l
  cases hlk : lookupA (parse_competitions
      [Node.monthHeader, Node.compEntry e1, Node.compEntry e2] L []).1
      (trimStr c, sanitize_location (trimStr l1)) with
  | none =>
    rw [lookupA_eq_none] at hlk
    exact absurd hkeys hlk
  | some r =>
    have hmem := lookupA_mem hlk
    have hinv := pass2_inv (club_websites
        [Node.monthHeader, Node.compEntry e1, Node.compEntry e2]) L [e1, e2]
      (([], []) : St) (by intro p hp; cases hp)
      ((trimStr c, sanitize_location (trimStr l1)), r) (hfold ▸ hmem)
    have hweb := hinv.2.2.2
    show some r.website = some (joinTake3 a.href)
    congr 1
    rw [hweb]
    simp only [hpw]
    rw [if_pos hw]

/-- C6 (witness): a concrete document where only the second of two
same-key entries carries a regulation link. -/
theorem C6_backfilled_website_witness :
    (lookupA (parse_competitions
        [Node.monthHeader,
         Node.compEntry
           { club := some "Klub", location := some "Miasto",
             dateTxt := some "10 sty 2026", nameTxt := some "Zawody A",
             anchors := [], weapons := none },
         Node.compEntry
           { club := some "Klub", location := some "Miasto",
             dateTxt := some "11 sty 2026", nameTxt := some "Zawody B",
             anchors := [{ href := "https://klub.pl/regulamin.pdf",
                           txt := "Regulamin" }],
             weapons := none }] [] []).1
        (trimStr "Klub", sanitize_location (trimStr "Miasto"))).map
          (fun r => r.website) =
      some "https://klub.pl" := by
  have h := C6_backfilled_website [] "Klub" "Miasto" "Miasto"
    { club := some "Klub", location := some "Miasto",
      dateTxt := some "10 sty 2026", nameTxt := some "Zawody A",
      anchors := [], weapons := none }
    { club := some "Klub", location := some "Miasto",
      dateTxt := some "11 sty 2026", nameTxt := some "Zawody B",
      anchors := [{ href := "https://klub.pl/regulamin.pdf", txt := "Regulamin" }],
      weapons := none }
    { href := "https://klub.pl/regulamin.pdf", txt := "Regulamin" }
    rfl rfl rfl rfl rfl rfl (by decide) (by decide)
  exact h.trans (by decide)

theorem mem_insortStr {c x : String} {l : List String} :
    c ∈ insortStr x l ↔ c = x ∨ c ∈ l := by
  induction l with
  | nil => simp [insortStr]
  | cons y r ih =>
    rw [insortStr]
    by_cases h : x ≤ y
    · rw [if_pos h]
      simp
    · rw [if_neg h]
      simp [ih]
      tauto

theorem mem_sortStr {c : String} {l : List String} : c ∈ sortStr l ↔ c ∈ l := by
  induction l with
  | nil => simp [sortStr]
  | cons x r ih =>
    rw [sortStr, List.foldr_cons, mem_insortStr, ← sortStr]
    simp [ih]

theorem lookupA_update (alllocs : List String) (L : Ledger)
    (recs : List ((String × String) × LocRec)) (loc : String)
    (h : loc ∈ sortStr alllocs.dedup) :
    lookupA (update_locations_csv alllocs L recs) loc =
      some { latitude := lkpLat L loc, longitude := lkpLon L loc,
             website := if scanW recs loc ≠ "" then scanW recs loc
                        else lkpWeb L loc } := by
  rw [update_locations_csv]
  generalize sortStr alllocs.dedup = ks at h ⊢
  induction ks with
  | nil => cases h
  | cons k t ih =>
    rw [List.map_cons, lookupA]
    by_cases hk : loc = k
    · rw [if_pos hk]
      subst hk
      rfl
    · rw [if_neg hk]
      refine ih ?_
      rcases List.mem_cons.mp h with h1 | h2
      · exact absurd h1 hk
      · exact h2

/-- C8: a location with known coordinates in the start-of-run ledger
that is observed again during the run keeps exactly those coordinates in
the rewritten ledger — the rewrite reads coordinates only from the old
ledger and the extraction never produces coordinate data. -/
theorem C8_coords_never_erased (doc : List Node) (L : Ledger) (loc : String)
    (row : LRow) (la lo : ℚ)
    (hL : lookupA L loc = some row)
    (hla : row.latitude = some la) (hlo : row.longitude = some lo)
    (hobs : loc ∈ (parse_competitions doc L []).2) :
    lkpLat (run_ledger doc L) loc = some la ∧
    lkpLon (run_ledger doc L) loc = some lo := by
  have hmem : loc ∈ sortStr ((parse_competitions doc L []).2).dedup :=
    mem_sortStr.mpr (List.mem_dedup.mpr hobs)
  rw [run_ledger]
  rw [lkpLat, lkpLon, lookupA_update _ _ _ _ hmem]
  constructor
  · show lkpLat L loc = some la
    rw [lkpLat, hL]
    exact hla
  · show lkpLon L loc = some lo
    rw [lkpLon, hL]
    exact hlo

/-- C8 (witness): a two-entry document over a ledger that already knows
the coordinates of location `"L"`. -/
theorem C8_coords_never_erased_witness :
    lkpLat (run_ledger
      [Node.monthHeader,
       Node.compEntry
         { club := some "A", location := some "L", dateTxt := some "1 sty 2026",
           nameTxt := some "Za", anchors := [], weapons := none },
       Node.compEntry
         { club := some "B", location := some "L", dateTxt := some "2 sty 2026",
           nameTxt := some "Zb",
           anchors := [{ href := "http://b.example/reg.pdf", txt := "Regulamin" }],
           weapons := none }]
      [("L", { latitude := some 1, longitude := some 2, website := "" })]) "L" =
      some 1 ∧
    lkpLon (run_ledger
      [Node.monthHeader,
       Node.compEntry
         { club := some "A", location := some "L", dateTxt := some "1 sty 2026",
           nameTxt := some "Za", anchors := [], weapons := none },
       Node.compEntry
         { club := some "B", location := some "L", dateTxt := some "2 sty 2026",
           nameTxt := some "Zb",
           anchors := [{ href := "http://b.example/reg.pdf", txt := "Regulamin" }],
           weapons := none }]
      [("L", { latitude := some 1, longitude := some 2, website := "" })]) "L" =
      some 2 :=
  C8_coords_never_erased _ _ "L"
    { latitude := some 1, longitude := some 2, website := "" } 1 2
    rfl rfl rfl (by decide)

theorem lookupA_map_fill (sites : List (String × String)) (L : Ledger)
    (recs : List ((String × String) × LocRec)) (k : String × String) :
    lookupA (recs.map (fillRow sites L)) k =
      (lookupA recs k).map (fun r => (fillRow sites L (k, r)).2) := by
  induction recs with
  | nil => rfl
  | cons p t ih =>
    obtain ⟨a, b⟩ := p
    rw [List.map_cons]
    show lookupA ((a, (fillRow sites L (a, b)).2) :: t.map (fillRow sites L)) k = _
    rw [lookupA, lookupA]
    by_cases hk : k = a
    · rw [if_pos hk, if_pos hk]
      subst hk
      rfl
    · rw [if_neg hk, if_neg hk]
      exact ih

theorem modifyA_map_fill_comps (sites : List (String × String)) (L : Ledger)
    (l : List ((String × String) × LocRec)) (key : String × String) (comp : Comp) :
    modifyA (l.map (fillRow sites L)) key
        (fun r => { r with comps := r.comps ++ [comp] }) =
      (modifyA l key (fun r => { r with comps := r.comps ++ [comp] })).map
        (fillRow sites L) := by
  rw [modifyA, modifyA, List.map_map, List.map_map]
  apply List.map_congr_left
  intro p _
  by_cases hk : p.1 = key
  · simp [fillRow, hk]
  · simp [fillRow, hk]

theorem modifyA_map_fill_backfill (sites : List (String × String)) (L : Ledger)
    (l : List ((String × String) × LocRec)) (key : String × String) (w : String)
    (hw : ¬(w = "")) (hpw : pwOf sites key.1 = w) :
    modifyA (l.map (fillRow sites L)) key
        (fun r => if r.website = "" then { r with website := w } else r) =
      (modifyA l key
        (fun r => if r.website = "" then { r with website := w } else r)).map
        (fillRow sites L) := by
  rw [modifyA, modifyA, List.map_map, List.map_map]
  apply List.map_congr_left
  intro p _
  by_cases hk : p.1 = key
  · by_cases hpweb : p.2.website = "" <;>
      simp [fillRow, hk, hpw, hw, hpweb]
  · simp [fillRow, hk]

theorem pass2step_map (sites : List (String × String)) (L1 L2 : Ledger)
    (recs : List ((String × String) × LocRec)) (locs : List String) (e : Entry) :
    pass2step sites L2 (recs.map (fillRow sites L2), locs) e =
      ((pass2step sites L1 (recs, locs) e).1.map (fillRow sites L2),
       (pass2step sites L1 (recs, locs) e).2) := by
  cases hclub : e.club with
  | none => rw [pass2step, pass2step, hclub]
  | some cp =>
    cases hloc : e.location with
    | none => rw [pass2step, pass2step, hclub, hloc]
    | some lp =>
      rw [pass2step, pass2step, hclub, hloc]
      simp only
      set key : String × String :=
        (trimStr cp, sanitize_location (trimStr lp)) with hkey
      set w := pwOf sites (trimStr cp) with hw
      have hrecs1 : (match lookupA (recs.map (fillRow sites L2)) key with
          | none => recs.map (fillRow sites L2) ++ [(key,
              ({ club := trimStr cp, location := trimStr lp,
                 latitude := lkpLat L2 (sanitize_location (trimStr lp)),
                 longitude := lkpLon L2 (sanitize_location (trimStr lp)),
                 website := if w ≠ "" then w
                            else lkpWeb L2 (sanitize_location (trimStr lp)),
                 comps := [] } : LocRec))]
          | some _ => recs.map (fillRow sites L2)) =
          ((match lookupA recs key with
            | none => recs ++ [(key,
                ({ club := trimStr cp, location := trimStr lp,
                   latitude := lkpLat L1 (sanitize_location (trimStr lp)),
                   longitude := lkpLon L1 (sanitize_location (trimStr lp)),
                   website := if w ≠ "" then w
                              else lkpWeb L1 (sanitize_location (trimStr lp)),
                   comps := [] } : LocRec))]
            | some _ => recs) : List ((String × String) × LocRec)).map
              (fillRow sites L2) := by
        rw [lookupA_map_fill]
        cases hlk : lookupA recs key with
        | none =>
          simp only [Option.map_none, List.map_append, List.map_cons, List.map_nil]
          congr 1
        | some r0 => rfl
      have hmain : ∀ A1 A2 : List ((String × String) × LocRec),
          A2 = A1.map (fillRow sites L2) →
          (if compNonempty (compOf e) = true
           then modifyA (if w ≠ "" then modifyA A2 key
               (fun r => if r.website = "" then { r with website := w } else r)
             else A2) key (fun r => { r with comps := r.comps ++ [compOf e] })
           else (if w ≠ "" then modifyA A2 key
               (fun r => if r.website = "" then { r with website := w } else r)
             else A2)) =
          ((if compNonempty (compOf e) = true
           then modifyA (if w ≠ "" then modifyA A1 key
               (fun r => if r.website = "" then { r with website := w } else r)
             else A1) key (fun r => { r with comps := r.comps ++ [compOf e] })
           else (if w ≠ "" then modifyA A1 key
               (fun r => if r.website = "" then { r with website := w } else r)
             else A1)).map (fillRow sites L2)) := by
        intro A1 A2 hA
        subst hA
        by_cases hwne : w ≠ ""
        · rw [if_pos hwne, if_pos hwne,
            modifyA_map_fill_backfill sites L2 A1 key w hwne rfl]
          by_cases hcne : compNonempty (compOf e) = true
          · rw [if_pos hcne, if_pos hcne, modifyA_map_fill_comps]
          · rw [if_neg hcne, if_neg hcne]
        · rw [if_neg hwne, if_neg hwne]
          by_cases hcne : compNonempty (compOf e) = true
          · rw [if_pos hcne, if_pos hcne, modifyA_map_fill_comps]
          · rw [if_neg hcne, if_neg hcne]
      simp only [Prod.mk.injEq]
      exact ⟨hmain _ _ hrecs1, trivial⟩

theorem pass2_fold_map (sites : List (String × String)) (L1 L2 : Ledger) :
    ∀ (es : List Entry) (recs : List ((String × String) × LocRec))
      (locs : List String),
      es.foldl (pass2step sites L2) (recs.map (fillRow sites L2), locs) =
        ((es.foldl (pass2step sites L1) (recs, locs)).1.map (fillRow sites L2),
         (es.foldl (pass2step sites L1) (recs, locs)).2) := by
  intro es
  induction es with
  | nil => intro recs locs; rfl
  | cons e rest ih =>
    intro recs locs
    rw [List.foldl_cons, List.foldl_cons, pass2step_map sites L1 L2 recs locs e]
    have h := ih (pass2step sites L1 (recs, locs) e).1
      (pass2step sites L1 (recs, locs) e).2
    rw [h]

theorem scanW_map_fill (sites : List (String × String)) (L Lnew : Ledger)
    (loc : String) :
    ∀ rs : List ((String × String) × LocRec),
      (∀ p ∈ rs, recInv sites L p) →
      lkpWeb Lnew loc = (if scanW rs loc ≠ "" then scanW rs loc else lkpWeb L loc) →
      scanW (rs.map (fillRow sites Lnew)) loc = "" ∨
        scanW (rs.map (fillRow sites Lnew)) loc = lkpWeb Lnew loc := by
  intro rs
  induction rs with
  | nil =>
    intro _ _
    left
    rfl
  | cons p t ih =>
    intro hinv hW
    obtain ⟨k, r⟩ := p
    have hinvp := hinv (k, r) (List.mem_cons_self _ _)
    have hsan : sanitize_location r.location = k.2 := hinvp.1
    have hrweb : r.website =
        (if pwOf sites k.1 ≠ "" then pwOf sites k.1 else lkpWeb L k.2) :=
      hinvp.2.2.2
    have htinv : ∀ q ∈ t, recInv sites L q :=
      fun q hq => hinv q (List.mem_cons_of_mem _ hq)
    rw [List.map_cons]
    show (if sanitize_location r.location = loc ∧
            (if pwOf sites k.1 ≠ "" then pwOf sites k.1 else lkpWeb Lnew k.2) ≠ ""
          then (if pwOf sites k.1 ≠ "" then pwOf sites k.1 else lkpWeb Lnew k.2)
          else scanW (t.map (fillRow sites Lnew)) loc) = "" ∨
         (if sanitize_location r.location = loc ∧
            (if pwOf sites k.1 ≠ "" then pwOf sites k.1 else lkpWeb Lnew k.2) ≠ ""
          then (if pwOf sites k.1 ≠ "" then pwOf sites k.1 else lkpWeb Lnew k.2)
          else scanW (t.map (fillRow sites Lnew)) loc) = lkpWeb Lnew loc
    have hWt : scanW ((k, r) :: t) loc =
        (if sanitize_location r.location = loc ∧ r.website ≠ "" then r.website
         else scanW t loc) := rfl
    by_cases hkl : sanitize_location r.location = loc
    · have hk2 : k.2 = loc := hsan.symm.trans hkl
      by_cases hpw : pwOf sites k.1 ≠ ""
      · have hrw : r.website = pwOf sites k.1 := by rw [hrweb, if_pos hpw]
        have hc1 : sanitize_location r.location = loc ∧ r.website ≠ "" :=
          ⟨hkl, by rw [hrw]; exact hpw⟩
        have hsv : scanW ((k, r) :: t) loc = r.website := by rw [hWt, if_pos hc1]
        rw [hsv, hrw, if_pos hpw] at hW
        have hc2 : sanitize_location r.location = loc ∧
            (if pwOf sites k.1 ≠ "" then pwOf sites k.1
             else lkpWeb Lnew k.2) ≠ "" := ⟨hkl, by rw [if_pos hpw]; exact hpw⟩
        rw [if_pos hc2, if_pos hpw]
        exact Or.inr hW.symm
      · have hrw : r.website = lkpWeb L k.2 := by rw [hrweb, if_neg hpw]
        by_cases hWL : lkpWeb Lnew loc = ""
        · have hc2 : ¬(sanitize_location r.location = loc ∧
              (if pwOf sites k.1 ≠ "" then pwOf sites k.1
               else lkpWeb Lnew k.2) ≠ "") :=
            fun h => h.2 (by rw [if_neg hpw, hk2]; exact hWL)
          rw [if_neg hc2]
          by_cases hrw0 : r.website = ""
          · have hc1 : ¬(sanitize_location r.location = loc ∧ r.website ≠ "") :=
              fun h => h.2 hrw0
            have hsv : scanW ((k, r) :: t) loc = scanW t loc := by
              rw [hWt, if_neg hc1]
            rw [hsv] at hW
            exact ih htinv hW
          · have hc1 : sanitize_location r.location = loc ∧ r.website ≠ "" :=
              ⟨hkl, hrw0⟩
            have hsv : scanW ((k, r) :: t) loc = r.website := by
              rw [hWt, if_pos hc1]
            rw [hsv, if_pos hrw0] at hW
            exact absurd (hWL.symm.trans hW).symm hrw0
        · have hc2 : sanitize_location r.location = loc ∧
              (if pwOf sites k.1 ≠ "" then pwOf sites k.1
               else lkpWeb Lnew k.2) ≠ "" :=
            ⟨hkl, by rw [if_neg hpw, hk2]; exact hWL⟩
          rw [if_pos hc2, if_neg hpw, hk2]
          exact Or.inr rfl
    · have hc2 : ¬(sanitize_location r.location = loc ∧
          (if pwOf sites k.1 ≠ "" then pwOf sites k.1
           else lkpWeb Lnew k.2) ≠ "") := fun h => hkl h.1
      have hc1 : ¬(sanitize_location r.location = loc ∧ r.website ≠ "") :=
        fun h => hkl h.1
      have hsv : scanW ((k, r) :: t) loc = scanW t loc := by rw [hWt, if_neg hc1]
      rw [if_neg hc2]
      rw [hsv] at hW
      exact ih htinv hW

theorem run_ledger_idem (doc : List Node) (L : Ledger) :
    run_ledger doc (run_ledger doc L) = run_ledger doc L := by
  have hmap : parse_competitions doc (run_ledger doc L) [] =
      ((parse_competitions doc L []).1.map
         (fillRow (club_websites doc) (run_ledger doc L)),
       (parse_competitions doc L []).2) :=
    pass2_fold_map (club_websites doc) L (run_ledger doc L)
      (entriesInSections doc) [] []
  conv_lhs => rw [run_ledger]
  rw [hmap]
  conv_rhs => rw [run_ledger]
  rw [update_locations_csv, update_locations_csv]
  apply List.map_congr_left
  intro loc hloc
  have hrow : lookupA (run_ledger doc L) loc =
      some { latitude := lkpLat L loc, longitude := lkpLon L loc,
             website := if scanW (parse_competitions doc L []).1 loc ≠ ""
                        then scanW (parse_competitions doc L []).1 loc
                        else lkpWeb L loc } := by
    rw [run_ledger]
    exact lookupA_update _ _ _ _ hloc
  have hlat : lkpLat (run_ledger doc L) loc = lkpLat L loc := by
    rw [lkpLat, hrow]
    rfl
  have hlon : lkpLon (run_ledger doc L) loc = lkpLon L loc := by
    rw [lkpLon, hrow]
    rfl
  have hweb : lkpWeb (run_ledger doc L) loc =
      (if scanW (parse_competitions doc L []).1 loc ≠ ""
       then scanW (parse_competitions doc L []).1 loc else lkpWeb L loc) := by
    rw [lkpWeb, hrow]
    rfl
  have hinv : ∀ p ∈ (parse_competitions doc L []).1,
      recInv (club_websites doc) L p :=
    pass2_inv (club_websites doc) L (entriesInSections doc) ([], [])
      (by intro p hp; cases hp)
  have hscan := scanW_map_fill (club_websites doc) L (run_ledger doc L) loc
    (parse_competitions doc L []).1 hinv hweb
  simp only [Prod.mk.injEq]
  refine ⟨trivial, ?_⟩
  simp only [LRow.mk.injEq]
  refine ⟨hlat, hlon, ?_⟩
  rw [← hweb]
  rcases hscan with hs0 | hsw
  · rw [hs0]
    simp
  · rw [hsw]
    simp

/-- C7 (counterexample): re-running the pipeline on identical markup and
an already-populated ledger does NOT reproduce the first run's JSON
records byte-for-byte: with a document where club `"A"` has no
regulation link but club `"B"` (same location `"L"`) does, and a ledger
that knows `"L"`'s coordinates but no website, the first run records
website `""` for `("A", "L")` while the second run — reading the ledger
the first run rewrote — records `"http://b.example"`. -/
theorem C7_rerun_not_identical_cex :
    (lookupA (parse_competitions
        [Node.monthHeader,
         Node.compEntry
           { club := some "A", location := some "L", dateTxt := some "1 sty 2026",
             nameTxt := some "Za", anchors := [], weapons := none },
         Node.compEntry
           { club := some "B", location := some "L", dateTxt := some "2 sty 2026",
             nameTxt := some "Zb",
             anchors := [{ href := "http://b.example/reg.pdf", txt := "Regulamin" }],
             weapons := none }]
        [("L", { latitude := some 1, longitude := some 2, website := "" })]
        []).1 ("A", "L")).map (fun r => r.website) = some "" ∧
    (lookupA (parse_competitions
        [Node.monthHeader,
         Node.compEntry
           { club := some "A", location := some "L", dateTxt := some "1 sty 2026",
             nameTxt := some "Za", anchors := [], weapons := none },
         Node.compEntry
           { club := some "B", location := some "L", dateTxt := some "2 sty 2026",
             nameTxt := some "Zb",
             anchors := [{ href := "http://b.example/reg.pdf", txt := "Regulamin" }],
             weapons := none }]
        (run_ledger
          [Node.monthHeader,
           Node.compEntry
             { club := some "A", location := some "L", dateTxt := some "1 sty 2026",
               nameTxt := some "Za", anchors := [], weapons := none },
           Node.compEntry
             { club := some "B", location := some "L", dateTxt := some "2 sty 2026",
               nameTxt := some "Zb",
               anchors := [{ href := "http://b.example/reg.pdf",
                             txt := "Regulamin" }],
               weapons := none }]
          [("L", { latitude := some 1, longitude := some 2, website := "" })])
        []).1 ("A", "L")).map (fun r => r.website) = some "http://b.example" ∧
    ("" : String) ≠ "http://b.example" := by
  refine ⟨rfl, rfl, ?_⟩
  decide

/-- C7 (amended): outputs stabilize from the second run onward, not from
the first: rewriting the ledger a second time over the same markup is a
no-op, so runs two and three produce identical ledgers, and the records
extracted (with a fresh in-process accumulator) from those identical
ledgers coincide; a first and second run may differ when the
pre-existing ledger lacks a website the run infers for another club at
the same location, and the in-process accumulator must be cleared
between runs. -/
theorem C7_rerun_stabilizes (doc : List Node) (L : Ledger) :
    run_ledger doc (run_ledger doc L) = run_ledger doc L ∧
    parse_competitions doc (run_ledger doc (run_ledger doc L)) [] =
      parse_competitions doc (run_ledger doc L) [] :=
  ⟨run_ledger_idem doc L, by rw [run_ledger_idem doc L]⟩
